import Mathlib

/-!
Verification of the diary/schedule/todo web application.

This file shallowly embeds the data model and the operations of the
repository (models.py, deps.py, routers/todos.py, routers/backup.py,
routers/restore_router.py) as executable Lean definitions, and proves or
refutes the specified properties about them.

Modelling conventions:
* SQL tables are lists of rows in row-id (insertion) order; `ORDER BY` is a
  stable sort (`List.insertionSort`), matching SQLite's behaviour on ties.
* Python `x or y` on strings/ints/None is embedded explicitly (`pyOrS`,
  `pyOrOptS`, `pyOrOptI`): both `None` and the falsy values `""`/`0` select
  the right operand.
* `datetime` instants are abstracted to `Nat`; `isoformat`/`fromisoformat`
  round-trip as the identity.
* Fallible Python code (`int(...)`, `date.fromisoformat`, `json.loads`,
  zip decoding, HTTP error raising) is embedded with `Option`/error codes.
-/

namespace DiaryApp

/-! ## Python coercion helpers -/

/-- Python `s or d` for an optional string `s`: `None` and `""` are falsy. -/
def pyOrOptS (s : Option String) (d : String) : String :=
  match s with
  | none => d
  | some v => if v = "" then d else v

/-- Python `s or d` for a plain string `s`: `""` is falsy. -/
def pyOrS (s : String) (d : String) : String :=
  if s = "" then d else s

/-- Python `n or d` for an optional integer `n`: `None` and `0` are falsy. -/
def pyOrOptI (n : Option Int) (d : Int) : Int :=
  match n with
  | none => d
  | some v => if v = 0 then d else v

/-- Python `bool(x)` for an optional boolean (JSON `null` → `False`),
    with `False` as the `.get` default. -/
def pyBool (b : Option Bool) : Bool :=
  b.getD false

/-- Python `s.startswith(pre)`. -/
def strStartsWith (s pre : String) : Bool :=
  pre.data.isPrefixOf s.data

/-- Python `s.endswith(suf)`. -/
def strEndsWith (s suf : String) : Bool :=
  suf.data.isSuffixOf s.data

/-- Lexicographic (codepoint) strict order on character lists: the common
    order of SQLite's BINARY collation and Python's `str` comparison. -/
def charListLt : List Char → List Char → Bool
  | [], [] => false
  | [], _ :: _ => true
  | _ :: _, [] => false
  | a :: as, b :: bs =>
      if a < b then true
      else if b < a then false
      else charListLt as bs

/-- Strict string order (codepoint lexicographic). -/
def strLt (a b : String) : Bool :=
  charListLt a.data b.data

/-- Non-strict string order. -/
def strLe (a b : String) : Bool :=
  !strLt b a

/-- Python `s.strip()`: whitespace removed from both ends. -/
def pyStrip (s : String) : String :=
  ⟨((s.data.dropWhile Char.isWhitespace).reverse.dropWhile
      Char.isWhitespace).reverse⟩

/-- Helper of `pySplit`: splits the character list at every occurrence of
    `c`, accumulating the current chunk reversed. -/
def splitOnCharAux (c : Char) : List Char → List Char → List (List Char)
  | [], acc => [acc.reverse]
  | x :: xs, acc =>
      if x = c then acc.reverse :: splitOnCharAux c xs []
      else splitOnCharAux c xs (x :: acc)

/-- Python `s.split(c)` for a one-character separator (`"".split(c) = [""]`,
    separators at the ends produce empty chunks). -/
def pySplit (s : String) (c : Char) : List String :=
  (splitOnCharAux c s.data []).map (fun l => ⟨l⟩)

/-- Decimal value of a digit character, if it is one. -/
def digitVal (c : Char) : Option Nat :=
  if c.isDigit then some (c.toNat - 48) else none

/-- Body of a Python integer literal: a nonempty digit string in which single
    underscores may separate digits (`int("1_0") = 10`, `int("1__0")` fails). -/
def parseUDigits : List Char → Option Nat
  | [] => none
  | c :: cs => do
      let d ← digitVal c
      parseUDigitsGo cs d
where
  parseUDigitsGo : List Char → Nat → Option Nat
    | [], acc => some acc
    | '_' :: c :: cs, acc => do
        let d ← digitVal c
        parseUDigitsGo cs (acc * 10 + d)
    | [c], acc => do
        let d ← digitVal c
        parseUDigitsGo [] (acc * 10 + d)
    | c :: c' :: cs, acc => do
        let d ← digitVal c
        parseUDigitsGo (c' :: cs) (acc * 10 + d)

/-- Python `int(s)`: surrounding whitespace is stripped, an optional sign is
    allowed, then a digit string (with optional single underscores between
    digits).  `none` models the `ValueError`. -/
def pyInt (s : String) : Option Int :=
  match (pyStrip s).data with
  | '+' :: rest => (parseUDigits rest).map Int.ofNat
  | '-' :: rest => (parseUDigits rest).map (fun n => -(Int.ofNat n : Int))
  | rest => (parseUDigits rest).map Int.ofNat

/-- Leap-year test of the Gregorian calendar (Python `calendar.isleap`). -/
def isLeapYear (y : Nat) : Bool :=
  (y % 4 == 0 && y % 100 != 0) || y % 400 == 0

/-- Number of days of month `m` of year `y`. -/
def daysInMonth (y m : Nat) : Nat :=
  if m = 2 then (if isLeapYear y then 29 else 28)
  else if m = 4 ∨ m = 6 ∨ m = 9 ∨ m = 11 then 30
  else 31

/-- Python `date.fromisoformat` on the canonical `YYYY-MM-DD` form: parses a
    valid calendar date into a `(year, month, day)` triple, `none` models the
    `ValueError`. -/
def parseIsoDate (s : String) : Option (Nat × Nat × Nat) :=
  match s.toList with
  | [y1, y2, y3, y4, '-', m1, m2, '-', d1, d2] => do
      let a ← digitVal y1
      let b ← digitVal y2
      let c ← digitVal y3
      let d ← digitVal y4
      let e ← digitVal m1
      let f ← digitVal m2
      let g ← digitVal d1
      let h ← digitVal d2
      let y := ((a * 10 + b) * 10 + c) * 10 + d
      let m := e * 10 + f
      let dy := g * 10 + h
      if 1 ≤ y ∧ 1 ≤ m ∧ m ≤ 12 ∧ 1 ≤ dy ∧ dy ≤ daysInMonth y m then
        some (y, m, dy)
      else none
  | _ => none

/-! ## Data model (models.py) -/

/-- Row of the `todos` table (models.py `Todo`). -/
structure Todo where
  id : String
  date : String
  title : String
  status : String
  order : Int
  sort_index : Int := 0
deriving DecidableEq

/-- Row of the `diaries` table (models.py `Diary`).  `created_at` is an
    abstract instant; the column is nullable but carries `server_default now()`. -/
structure Diary where
  id : Int
  title : String
  content : String
  tags : Option String
  image_url : Option String
  created_at : Option Nat
deriving DecidableEq

/-- Row of the `schedules` table (models.py `Schedule`). -/
structure Schedule where
  id : Int
  date : String
  title : String
  memo : Option String
  time_str : Option String
  place : Option String
  done : Option Bool
deriving DecidableEq

/-- The relational store: the three entity tables, rows in row-id order. -/
structure DB where
  diaries : List Diary
  schedules : List Schedule
  todos : List Todo
deriving DecidableEq

/-! ## Todo operations (routers/todos.py) -/

/-- `db.query(func.max(Todo.order)).filter(Todo.status == "pending").scalar()`:
    the maximum `order` over pending rows, `none` when there is none. -/
def maxPendingOrder (todos : List Todo) : Option Int :=
  ((todos.filter (fun t => t.status == "pending")).map (fun t => t.order)).max?

/-- `create_todo` (routers/todos.py): appends a new pending row dated today
    with `order = (max pending order or 0) + 1`.  `uuid.uuid4()` is modelled by
    the caller-supplied fresh id `newId`. -/
def create_todo (newId today title : String) (todos : List Todo) : List Todo :=
  let next_order := pyOrOptI (maxPendingOrder todos) 0 + 1
  todos ++ [{ id := newId, date := today, title := title,
              status := "pending", order := next_order }]

/-- The dict comprehension `{tid: idx for idx, tid in enumerate(order)}` looked
    up at `tid`: the index of the LAST occurrence of `tid` in `order` (later
    assignments overwrite earlier ones). -/
def orderMap : List String → String → Option Nat
  | [], _ => none
  | a :: rest, tid =>
      match orderMap rest tid with
      | some i => some (i + 1)
      | none => if a == tid then some 0 else none

/-- Per-row body of the `reorder_todos` loop: a pending row gets the mapped
    index as its new `order`, or the sentinel `10_000_000` when its id is
    absent from the submitted list; non-pending rows are not touched. -/
def reorderItem (order : List String) (item : Todo) : Todo :=
  if item.status == "pending" then
    { item with order :=
        match orderMap order item.id with
        | some idx => Int.ofNat idx
        | none => 10000000 }
  else item

/-- `reorder_todos` (routers/todos.py): applies `reorderItem` to every row. -/
def reorder_todos (order : List String) (todos : List Todo) : List Todo :=
  todos.map (reorderItem order)

/-- `item.status = newStatus` on the row fetched by primary key `todo_id`. -/
def setTodoStatus (newStatus todo_id : String) (t : Todo) : Todo :=
  if t.id == todo_id then { t with status := newStatus } else t

/-- `mark_todo_done` (routers/todos.py): 404 when the id is absent, otherwise
    sets the row's status to `"done"` (whatever its current status). -/
def mark_todo_done (todo_id : String) (todos : List Todo) :
    Except (Nat × String) (List Todo) :=
  if todos.any (fun t => t.id == todo_id) then
    .ok (todos.map (setTodoStatus ("done") todo_id))
  else .error (404, "Todo not found")

/-- `mark_todo_giveup` (routers/todos.py): like `mark_todo_done` with
    status `"giveup"`. -/
def mark_todo_giveup (todo_id : String) (todos : List Todo) :
    Except (Nat × String) (List Todo) :=
  if todos.any (fun t => t.id == todo_id) then
    .ok (todos.map (setTodoStatus ("giveup") todo_id))
  else .error (404, "Todo not found")

/-- `ORDER BY Todo.order ASC, Todo.date ASC` (the pending query of
    `todo_page`). -/
def pendingLe (a b : Todo) : Prop :=
  a.order < b.order ∨ (a.order = b.order ∧ strLe a.date b.date = true)

instance : DecidableRel pendingLe := fun a b => by
  unfold pendingLe; infer_instance

/-- The pending list of `todo_page` (routers/todos.py): rows with status
    `"pending"`, ordered by `(order, date)`; ties keep row-id order (stable
    sort). -/
def listPending (db : DB) : List Todo :=
  List.insertionSort pendingLe (db.todos.filter (fun t => t.status == "pending"))

/-- Todo DTO of deps.py (`TodoItem`). -/
structure TodoItem where
  id : String
  date : String
  title : String
  status : String
deriving DecidableEq

/-- `ORDER BY Todo.date, Todo.order, Todo.id` (deps.py `load_todos`). -/
def loadTodosLe (a b : Todo) : Prop :=
  strLt a.date b.date = true ∨ (a.date = b.date ∧
    (a.order < b.order ∨ (a.order = b.order ∧ strLe a.id b.id = true)))

instance : DecidableRel loadTodosLe := fun a b => by
  unfold loadTodosLe; infer_instance

/-- Status coercion of `load_todos`: `row.status or "pending"`, then anything
    outside the closed enum becomes `"pending"`. -/
def coerceStatus (s0 : String) : String :=
  if pyOrS s0 ("pending") == "pending" || pyOrS s0 ("pending") == "done" ||
      pyOrS s0 ("pending") == "giveup" then pyOrS s0 ("pending")
  else ("pending")

/-- `load_todos` (deps.py): every row, ordered by `(date, order, id)`, each
    converted to a `TodoItem` with its status coerced into the closed enum. -/
def load_todos (db : DB) : List TodoItem :=
  (List.insertionSort loadTodosLe db.todos).map (fun row =>
    { id := row.id, date := row.date, title := row.title,
      status := coerceStatus row.status })

/-- `ORDER BY Todo.date DESC, Todo.id DESC` (the history query of
    `todo_page`). -/
def historyLe (a b : Todo) : Prop :=
  strLt b.date a.date = true ∨ (a.date = b.date ∧ strLe b.id a.id = true)

instance : DecidableRel historyLe := fun a b => by
  unfold historyLe; infer_instance

/-- The filtered, sorted history query of `todo_page` before paging: rows with
    status `done`/`giveup`, optional inclusive date-window filters (ignored
    when the query string is not a valid ISO date), optional single-status
    filter, newest first. -/
def historyFiltered (startQ endQ : Option String) (history_status : String)
    (db : DB) : List Todo :=
  let q := db.todos.filter (fun t => t.status == "done" || t.status == "giveup")
  let q := match startQ with
    | none => q
    | some s =>
        match parseIsoDate s with
        | some _ => q.filter (fun t => strLe s t.date)
        | none => q
  let q := match endQ with
    | none => q
    | some e =>
        match parseIsoDate e with
        | some _ => q.filter (fun t => strLe t.date e)
        | none => q
  let status_key := pyOrS history_status ("all")
  let q := if status_key = "done" then q.filter (fun t => t.status == "done")
           else if status_key = "giveup" then q.filter (fun t => t.status == "giveup")
           else q
  List.insertionSort historyLe q

/-- History paging of `todo_page`: 20 per page, page clamped into
    `[1, totalPages]`, `totalPages = max 1 ⌈total/20⌉`. -/
def historyPageRows (startQ endQ : Option String) (history_status : String)
    (history_page : Int) (db : DB) : List Todo :=
  let per_page : Nat := 20
  let rows := historyFiltered startQ endQ history_status db
  let total_pages : Nat := max 1 ((rows.length + per_page - 1) / per_page)
  let page : Int := max 1 (min history_page (Int.ofNat total_pages))
  (rows.drop ((page - 1).toNat * per_page)).take per_page

/-! ## Schedule sort key (deps.py) -/

/-- Schedule DTO of deps.py (`ScheduleItem`). -/
structure ScheduleItem where
  id : String
  date : String
  title : String
  memo : Option String := none
  time : Option String := none
  time_str : Option String := none
  place : Option String := none
deriving DecidableEq

/-- `(item.time_str or item.time or "").strip()`. -/
def timeStrOf (item : ScheduleItem) : String :=
  pyStrip (pyOrOptS item.time_str (pyOrOptS item.time ("")))

/-- `h, m = map(int, t_str.split(":"))` with the `except ValueError` fallback
    to `(23, 59)`: any shape other than two valid integers falls back. -/
def parseClockTime (t_str : String) : Int × Int :=
  match pySplit t_str ':' with
  | [hs, ms] =>
      match pyInt hs, pyInt ms with
      | some h, some m => (h, m)
      | _, _ => (23, 59)
  | _ => (23, 59)

/-- The sort key type `(date, has_time, hour, minute)` of
    `schedule_sort_key`. -/
abbrev SKey := (Nat × Nat × Nat) × Nat × Int × Int

/-- `schedule_sort_key` (deps.py): `none` models the uncaught `ValueError` of
    `date.fromisoformat` on a malformed date. -/
def schedule_sort_key (item : ScheduleItem) : Option SKey :=
  match parseIsoDate item.date with
  | none => none
  | some d =>
      let t_str := timeStrOf item
      if t_str = "" then some (d, 0, 0, 0)
      else
        let hm := parseClockTime t_str
        some (d, 1, hm.1, hm.2)

/-- Python's lexicographic `<` on date triples. -/
def dateTupLt (a b : Nat × Nat × Nat) : Prop :=
  a.1 < b.1 ∨ (a.1 = b.1 ∧ (a.2.1 < b.2.1 ∨ (a.2.1 = b.2.1 ∧ a.2.2 < b.2.2)))

/-- Python's lexicographic `<` on sort-key tuples. -/
def skeyLt (a b : SKey) : Prop :=
  dateTupLt a.1 b.1 ∨ (a.1 = b.1 ∧
    (a.2.1 < b.2.1 ∨ (a.2.1 = b.2.1 ∧
      (a.2.2.1 < b.2.2.1 ∨ (a.2.2.1 = b.2.2.1 ∧ a.2.2.2 < b.2.2.2)))))

/-- Python's lexicographic `<=` on sort-key tuples. -/
def skeyLe (a b : SKey) : Prop :=
  skeyLt a b ∨ a = b

instance : DecidableRel dateTupLt := fun a b => by
  unfold dateTupLt; infer_instance

instance : DecidableRel skeyLt := fun a b => by
  unfold skeyLt; infer_instance

instance : DecidableRel skeyLe := fun a b => by
  unfold skeyLe; infer_instance

/-- Key comparison used by `items.sort(key=schedule_sort_key)`; items whose
    key computation raises do not get this far. -/
def scheduleItemLe (a b : ScheduleItem) : Prop :=
  skeyLe ((schedule_sort_key a).getD ((0, 0, 0), 0, 0, 0))
         ((schedule_sort_key b).getD ((0, 0, 0), 0, 0, 0))

instance : DecidableRel scheduleItemLe := fun a b => by
  unfold scheduleItemLe; infer_instance

/-- `items.sort(key=schedule_sort_key)` (as in deps.py `load_schedule`):
    raises (`none`) when any key computation raises, otherwise a stable sort
    by the key. -/
def sortSchedule (items : List ScheduleItem) : Option (List ScheduleItem) :=
  if items.all (fun it => (schedule_sort_key it).isSome) then
    some (List.insertionSort scheduleItemLe items)
  else none

/-! ## Backup and restore (routers/backup.py, routers/restore_router.py)

The JSON metadata document is modelled structurally: a zip entry's payload is
either bytes whose `json.loads` decoding is known (`jsonDoc`, with `none` for
a parse failure) or opaque asset bytes (`fileData`).  `json.dumps` followed by
`json.loads` is the identity on the document structure used here. -/

/-- One serialized diary record (`_serialize_diary` output / the dict read by
    the restore loop; absent keys and JSON `null` both read back as `none`
    through `dict.get`). -/
structure DiaryRec where
  id : Option Int := none
  title : Option String := none
  content : Option String := none
  image_url : Option String := none
  tags : Option String := none
  created_at : Option Nat := none
  updated_at : Option Nat := none
deriving DecidableEq

/-- One serialized schedule record (`_serialize_schedule`). -/
structure SchedRec where
  id : Option Int := none
  date : Option String := none
  title : Option String := none
  memo : Option String := none
  time_str : Option String := none
  place : Option String := none
  done : Option Bool := none
deriving DecidableEq

/-- One serialized todo record (`_serialize_todo`). -/
structure TodoRec where
  id : Option String := none
  date : Option String := none
  title : Option String := none
  status : Option String := none
  order : Option Int := none
deriving DecidableEq

/-- The top-level backup document (`data` dict): `data.get("diaries", [])`
    etc., so absent collections default to `[]`. -/
structure BackupData where
  diaries : List DiaryRec := []
  schedules : List SchedRec := []
  todos : List TodoRec := []
deriving DecidableEq

/-- Bytes of a zip entry, viewed through the operations the code performs. -/
inductive Payload where
  /-- Bytes whose `json.loads` decoding is `d` (`none`: not valid JSON). -/
  | jsonDoc (d : Option BackupData)
  /-- Opaque asset-file bytes. -/
  | fileData (bytes : Nat)
deriving DecidableEq

/-- A zip member. -/
structure ZipEntry where
  name : String
  payload : Payload
deriving DecidableEq

/-- The uploads directory: relative posix path → file bytes, in walk order,
    paths unique. -/
abbrev Dir := List (String × Payload)

/-- Application state touched by backup/restore: the store plus the uploads
    directory. -/
structure AppState where
  db : DB
  uploads : Dir
deriving DecidableEq

/-- `_serialize_diary` (routers/backup.py).  The model has no `updated_at`
    attribute, so the serialized `updated_at` is always `None`. -/
def serialize_diary (row : Diary) : DiaryRec :=
  { id := some row.id, title := some row.title, content := some row.content,
    image_url := row.image_url, tags := row.tags,
    created_at := row.created_at, updated_at := none }

/-- `_serialize_schedule` (routers/backup.py). -/
def serialize_schedule (row : Schedule) : SchedRec :=
  { id := some row.id, date := some row.date, title := some row.title,
    memo := row.memo, time_str := row.time_str, place := row.place,
    done := row.done }

/-- `_serialize_todo` (routers/backup.py); `sort_index` is not serialized. -/
def serialize_todo (row : Todo) : TodoRec :=
  { id := some row.id, date := some row.date, title := some row.title,
    status := some row.status, order := some row.order }

/-- The full backup document of `backup_db`. -/
def serializeDB (db : DB) : BackupData :=
  { diaries := db.diaries.map serialize_diary,
    schedules := db.schedules.map serialize_schedule,
    todos := db.todos.map serialize_todo }

/-- `backup_db` (routers/backup.py): the zip holds the JSON document under
    `steplog_backup_YYYYMMDD.json` plus every uploads file under an
    `uploads/` prefix.  `todayStr` is `datetime.now(KST).strftime("%Y%m%d")`. -/
def backup_db (todayStr : String) (db : DB) (uploads : Dir) : List ZipEntry :=
  { name := "steplog_backup_" ++ todayStr ++ ".json",
    payload := .jsonDoc (some (serializeDB db)) } ::
    uploads.map (fun e => { name := "uploads/" ++ e.1, payload := e.2 })

/-- Backup-document selection of `restore_db` (routers/restore_router.py):
    the legacy name `steplog_backup.json` is used when present; otherwise the
    candidates matching `steplog_backup_*.json` are sorted and the last
    (lexicographically greatest) is used; otherwise `none`. -/
def selectBackupJson (namelist : List String) : Option String :=
  if ("steplog_backup.json") ∈ namelist then some ("steplog_backup.json")
  else
    match namelist.filter (fun n =>
        strStartsWith n ("steplog_backup_") && strEndsWith n (".json")) with
    | [] => none
    | c :: cs =>
        some (cs.foldl (fun acc s => if strLt acc s then s else acc) c)

/-- `zf.read name` decoded with `json.loads`: zipfile's name table keeps the
    last entry for a duplicated name. -/
def zipReadJson (entries : List ZipEntry) (name : String) : Option BackupData :=
  match (entries.reverse.find? (fun e => e.name == name)).map ZipEntry.payload with
  | some (.jsonDoc d) => d
  | _ => none

/-- True when re-inserting these todo records commits: the `todos` primary key
    requires every id to be present and the ids to be distinct (models.py). -/
def restoreTodosValid (todos : List TodoRec) : Prop :=
  (∀ t ∈ todos, t.id.isSome = true) ∧ (todos.filterMap (fun t => t.id)).Nodup

instance : ∀ ts, Decidable (restoreTodosValid ts) := fun ts => by
  unfold restoreTodosValid; infer_instance

/-- The diary re-insertion loop of `restore_db`, with auto-increment ids
    continuing from `i` (the table was emptied, so the loop starts at `i = 0`
    and the rows get ids `1, 2, …`): field defaults via `or`, `created_at`
    from the archive when present, else the column's `server_default now()`. -/
def restoreDiariesFrom (now : Nat) (i : Nat) : List DiaryRec → List Diary
  | [] => []
  | d :: ds =>
      { id := Int.ofNat (i + 1),
        title := pyOrOptS d.title (""),
        content := pyOrOptS d.content (""),
        image_url := d.image_url,
        tags := some (pyOrOptS d.tags ("")),
        created_at := some (match d.created_at with
          | some t => t
          | none => now) } :: restoreDiariesFrom now (i + 1) ds

/-- The diary re-insertion loop of `restore_db`. -/
def restoreDiaries (now : Nat) (ds : List DiaryRec) : List Diary :=
  restoreDiariesFrom now 0 ds

/-- The schedule re-insertion loop of `restore_db`, ids from `i + 1`:
    verbatim fields with `or` defaults, fresh auto-increment ids. -/
def restoreSchedulesFrom (i : Nat) : List SchedRec → List Schedule
  | [] => []
  | s :: ss =>
      { id := Int.ofNat (i + 1),
        date := pyOrOptS s.date (""),
        title := pyOrOptS s.title (""),
        memo := s.memo, time_str := s.time_str, place := s.place,
        done := some (pyBool s.done) } :: restoreSchedulesFrom (i + 1) ss

/-- The schedule re-insertion loop of `restore_db`. -/
def restoreSchedules (ss : List SchedRec) : List Schedule :=
  restoreSchedulesFrom 0 ss

/-- The todo re-insertion loop of `restore_db`: ids verbatim, `order`
    preserved exactly (`or 0`), `sort_index` at its column default. -/
def restoreTodos (ts : List TodoRec) : List Todo :=
  ts.map (fun t =>
    { id := t.id.getD (""),
      date := pyOrOptS t.date (""),
      title := pyOrOptS t.title (""),
      status := pyOrOptS t.status ("pending"),
      order := pyOrOptI t.order 0,
      sort_index := 0 })

/-- The destructive database phase of `restore_db` (steps 4–8 of the spec):
    the three `delete()` calls are followed by `db.commit()` BEFORE the
    re-insertion loops run, so the deletions sit in their own committed
    transaction; a failing second commit rolls back only the insertions and
    reports a 500, leaving the emptied tables visible. -/
def restorePhase (_db : DB) (data : BackupData) (now : Nat) :
    DB × Option (Nat × String) :=
  if restoreTodosValid data.todos then
    ({ diaries := restoreDiaries now data.diaries,
       schedules := restoreSchedules data.schedules,
       todos := restoreTodos data.todos }, none)
  else
    ({ diaries := [], schedules := [], todos := [] },
     some (500, "DB restore error"))

/-- Filesystem write: overwrite the file at `path` or create it. -/
def dirWrite (dir : Dir) (path : String) (content : Payload) : Dir :=
  if dir.any (fun e => e.1 == path) then
    dir.map (fun e => if e.1 == path then (e.1, content) else e)
  else dir ++ [(path, content)]

/-- The asset phase of `restore_db`: every zip member under `uploads/` is
    written to the uploads directory (additively, never deleting), empty
    relative paths skipped. -/
def restoreAssets (entries : List ZipEntry) (uploads : Dir) : Dir :=
  ((entries.map ZipEntry.name).filter (fun n => strStartsWith n ("uploads/"))).foldl
    (fun dir name =>
      let rel : String := ⟨name.data.drop 8⟩
      if rel = "" then dir
      else
        match (entries.reverse.find? (fun e => e.name == name)).map
            ZipEntry.payload with
        | some c => dirWrite dir rel c
        | none => dir)
    uploads

/-- Outcome of the restore endpoint. -/
inductive RestoreOutcome where
  /-- 303 redirect to `/` (success). -/
  | redirect
  /-- `HTTPException(code, …)`, tagged with the failing check. -/
  | httpError (code : Nat) (tag : String)
deriving DecidableEq

/-- `restore_db` (routers/restore_router.py): extension check, zip check
    (`none` models `BadZipFile`), backup-document selection, JSON parse, then
    the destructive phase and the asset phase.  Returns the application state
    after the request together with the response. -/
def restore_db (filename : String) (zip : Option (List ZipEntry)) (now : Nat)
    (st : AppState) : AppState × RestoreOutcome :=
  if strEndsWith filename (".zip") then
    match zip with
    | none => (st, .httpError 400 ("corrupt ZIP file"))
    | some entries =>
        match selectBackupJson (entries.map ZipEntry.name) with
        | none => (st, .httpError 400 ("no recognized backup document"))
        | some jsonName =>
            match zipReadJson entries jsonName with
            | none => (st, .httpError 400 ("JSON parse failed"))
            | some data =>
                match restorePhase st.db data now with
                | (db2, some err) =>
                    ({ st with db := db2 }, .httpError err.1 err.2)
                | (db2, none) =>
                    ({ db := db2, uploads := restoreAssets entries st.uploads },
                     .redirect)
  else (st, .httpError 400 ("please upload a ZIP file"))

/-! ## Operation sequences over the todo store (for the §8 invariant) -/

/-- One user-level operation of the todo ordering model: `create` (title and
    the creation day), `reorder`, or a status transition (done/giveup). -/
inductive TodoOp where
  | create (title today : String)
  | reorder (order : List String)
  | markDone (tid : String)
  | markGiveup (tid : String)

/-- One request against the store.  `uuid` supplies the fresh id drawn by
    `uuid.uuid4()` for the `n`-th `create`; a 404 on a transition leaves the
    store unchanged. -/
def applyOp (uuid : Nat → String) (st : List Todo × Nat) (op : TodoOp) :
    List Todo × Nat :=
  match op with
  | .create title today => (create_todo (uuid st.2) today title st.1, st.2 + 1)
  | .reorder order => (reorder_todos order st.1, st.2)
  | .markDone tid => ((mark_todo_done tid st.1).toOption.getD st.1, st.2)
  | .markGiveup tid => ((mark_todo_giveup tid st.1).toOption.getD st.1, st.2)

/-- A sequence of operations starting from the empty store. -/
def runOps (uuid : Nat → String) (ops : List TodoOp) : List Todo × Nat :=
  ops.foldl (applyOp uuid) ([], 0)

/-- Store invariant maintained by every operation: row ids are pairwise
    distinct, and two distinct pending rows share a rank only at the sentinel
    `10_000_000`. -/
def StoreInv (todos : List Todo) : Prop :=
  todos.Pairwise (fun a b => a.id ≠ b.id ∧
    (a.status = "pending" → b.status = "pending" → a.order = b.order →
      a.order = 10000000))

/-- Every row id was drawn from the first `n` generated uuids. -/
def IdsFrom (uuid : Nat → String) (n : Nat) (todos : List Todo) : Prop :=
  ∀ t ∈ todos, ∃ m, m < n ∧ t.id = uuid m

/-- An injective stand-in for the uuid generator, usable in closed scenarios. -/
def c5uuid : Nat → String :=
  fun n => String.mk (List.replicate n 'a')

/-- The sort key the specification claims for `listPending`:
    `(rank, then date, then id)` — stated from the spec's words, to be
    compared against the implemented `(rank, date)` key. -/
def rankDateIdLe (a b : Todo) : Prop :=
  a.order < b.order ∨ (a.order = b.order ∧
    (strLt a.date b.date = true ∨ (a.date = b.date ∧ strLe a.id b.id = true)))

instance : DecidableRel rankDateIdLe := fun a b => by
  unfold rankDateIdLe; infer_instance

/-! ## Concrete fixtures used by scenario conjuncts -/

/-- Reachable store with two pending rows whose ranks and dates tie and whose
    ids are out of storage order: created as b then a, then reordered with an
    empty list (both get the sentinel rank). -/
def c6store : List Todo :=
  reorder_todos []
    (create_todo ("a") "2025-06-01" "A" (create_todo ("b") "2025-06-01" "B" []))

/-- A stored todo row whose status lies outside the closed enum. -/
def c9weird : Todo :=
  { id := "x", date := "2025-06-01", title := "T", status := "weird",
    order := 0 }

/-- Backup document whose todo records collide on the primary key, so the
    re-insertion commit of the restore fails. -/
def c1data : BackupData :=
  { todos := [{ id := some ("x") }, { id := some ("x") }] }

/-- A store holding one schedule row, to observe the destructive phase. -/
def c1db : DB :=
  { diaries := [],
    schedules := [⟨1, "2025-06-01", "m", none, none, none, some false⟩],
    todos := [] }

/-- A store whose single diary row has id 2 (as after a deletion), for the
    round-trip claim. -/
def c2db : DB :=
  { diaries := [⟨2, "t", "c", some ("x"), none, some 5⟩],
    schedules := [], todos := [] }

/-- Diary rows as re-inserted by a restore: identical except for freshly
    generated auto-increment ids `i+1, i+2, …`. -/
def reindexDiaries (i : Nat) : List Diary → List Diary
  | [] => []
  | d :: ds => { d with id := Int.ofNat (i + 1) } :: reindexDiaries (i + 1) ds

/-- Schedule rows as re-inserted by a restore: identical except for freshly
    generated auto-increment ids. -/
def reindexSchedules (i : Nat) : List Schedule → List Schedule
  | [] => []
  | s :: ss =>
      { s with id := Int.ofNat (i + 1) } :: reindexSchedules (i + 1) ss

/-- Concrete pending store {a, b, c} with arbitrary prior ranks, for the
reorder scenario. -/
def c7store : List Todo :=
  [{ id := "a", date := "2025-06-01", title := "A", status := "pending", order := 5 },
   { id := "b", date := "2025-06-01", title := "B", status := "pending", order := 3 },
   { id := "c", date := "2025-06-01", title := "C", status := "pending", order := 9 }]

/-- Scenario item with no time (deps.py scenario). -/
def c8NoTime : ScheduleItem :=
  { id := "1", date := "2025-06-01", title := "n" }

/-- Scenario item timed 09:00. -/
def c8Timed : ScheduleItem :=
  { id := "2", date := "2025-06-01", title := "t", time_str := some ("09:00") }

/-- Scenario item with malformed time. -/
def c8Bad : ScheduleItem :=
  { id := "3", date := "2025-06-01", title := "b", time_str := some ("bad") }

/-! ## Helper lemmas -/

theorem charListLt_irrefl (l : List Char) : charListLt l l = false := by
  induction l with
  | nil => rfl
  | cons a as ih => simp [charListLt, ih]

theorem charListLt_trans (a b c : List Char) (hab : charListLt a b = true)
    (hbc : charListLt b c = true) : charListLt a c = true := by
  induction a generalizing b c with
  | nil =>
      cases c with
      | nil =>
          cases b with
          | nil => exact hab
          | cons y ys => simp [charListLt] at hbc
      | cons z zs => rfl
  | cons x xs ih =>
      cases b with
      | nil => simp [charListLt] at hab
      | cons y ys =>
          cases c with
          | nil => simp [charListLt] at hbc
          | cons z zs =>
              simp only [charListLt] at hab hbc ⊢
              rcases lt_trichotomy x y with hxy | hxy | hxy
              · rcases lt_trichotomy y z with hyz | hyz | hyz
                · rw [if_pos (lt_trans hxy hyz)]
                · subst hyz
                  rw [if_pos hxy]
                · rw [if_neg (lt_asymm hyz), if_pos hyz] at hbc
                  exact Bool.noConfusion hbc
              · subst hxy
                rw [if_neg (lt_irrefl x), if_neg (lt_irrefl x)] at hab
                rcases lt_trichotomy x z with hxz | hxz | hxz
                · rw [if_pos hxz]
                · subst hxz
                  rw [if_neg (lt_irrefl x), if_neg (lt_irrefl x)] at hbc ⊢
                  exact ih ys zs hab hbc
                · rw [if_neg (lt_asymm hxz), if_pos hxz] at hbc
                  exact Bool.noConfusion hbc
              · rw [if_neg (lt_asymm hxy), if_pos hxy] at hab
                exact Bool.noConfusion hab

theorem charListLt_trichotomy (a b : List Char) :
    charListLt a b = true ∨ a = b ∨ charListLt b a = true := by
  induction a generalizing b with
  | nil =>
      cases b with
      | nil => exact Or.inr (Or.inl rfl)
      | cons y ys => exact Or.inl rfl
  | cons x xs ih =>
      cases b with
      | nil => exact Or.inr (Or.inr rfl)
      | cons y ys =>
          rcases lt_trichotomy x y with hxy | hxy | hxy
          · exact Or.inl (by simp [charListLt, hxy])
          · subst hxy
            rcases ih ys with h | h | h
            · exact Or.inl (by simp [charListLt, h])
            · exact Or.inr (Or.inl (by rw [h]))
            · exact Or.inr (Or.inr (by simp [charListLt, h]))
          · exact Or.inr (Or.inr (by simp [charListLt, hxy]))

theorem strLt_irrefl (a : String) : strLt a a = false :=
  charListLt_irrefl a.data

theorem strLt_trans (a b c : String) (hab : strLt a b = true)
    (hbc : strLt b c = true) : strLt a c = true :=
  charListLt_trans a.data b.data c.data hab hbc

theorem strLt_trichotomy (a b : String) :
    strLt a b = true ∨ a = b ∨ strLt b a = true := by
  rcases charListLt_trichotomy a.data b.data with h | h | h
  · exact Or.inl h
  · exact Or.inr (Or.inl (String.ext h))
  · exact Or.inr (Or.inr h)

theorem strLe_eq_true_iff (a b : String) :
    strLe a b = true ↔ strLt b a = false := by
  unfold strLe
  cases strLt b a <;> simp

theorem strLe_total (a b : String) : strLe a b = true ∨ strLe b a = true := by
  rcases h : strLt b a with _ | _
  · exact Or.inl ((strLe_eq_true_iff a b).mpr h)
  · rcases h2 : strLt a b with _ | _
    · exact Or.inr ((strLe_eq_true_iff b a).mpr h2)
    · have := strLt_trans a b a h2 h
      rw [strLt_irrefl] at this
      exact Bool.noConfusion this

theorem strLe_trans (a b c : String) (hab : strLe a b = true)
    (hbc : strLe b c = true) : strLe a c = true := by
  rw [strLe_eq_true_iff] at hab hbc ⊢
  rcases hca : strLt c a with _ | _
  · rfl
  · exfalso
    rcases strLt_trichotomy a b with h | h | h
    · have hcb := strLt_trans c a b hca h
      rw [hbc] at hcb
      exact Bool.noConfusion hcb
    · rw [h] at hca
      rw [hbc] at hca
      exact Bool.noConfusion hca
    · rw [hab] at h
      exact Bool.noConfusion h

theorem strLt_of_le_ne (a b : String) (h : strLe a b = true) (hne : a ≠ b) :
    strLt a b = true := by
  rcases strLt_trichotomy a b with hx | hx | hx
  · exact hx
  · exact absurd hx hne
  · rw [strLe_eq_true_iff, hx] at h
    exact Bool.noConfusion h

theorem pendingLe_total (a b : Todo) : pendingLe a b ∨ pendingLe b a := by
  rcases lt_trichotomy a.order b.order with h | h | h
  · exact Or.inl (Or.inl h)
  · rcases strLe_total a.date b.date with h2 | h2
    · exact Or.inl (Or.inr ⟨h, h2⟩)
    · exact Or.inr (Or.inr ⟨h.symm, h2⟩)
  · exact Or.inr (Or.inl h)

theorem pendingLe_trans (a b c : Todo) (hab : pendingLe a b)
    (hbc : pendingLe b c) : pendingLe a c := by
  rcases hab with h | ⟨h, h2⟩ <;> rcases hbc with g | ⟨g, g2⟩
  · exact Or.inl (h.trans g)
  · exact Or.inl (g ▸ h)
  · exact Or.inl (h ▸ g)
  · exact Or.inr ⟨h.trans g, strLe_trans a.date b.date c.date h2 g2⟩


theorem pyOrOptS_some_empty (v : String) : pyOrOptS (some v) "" = v := by
  unfold pyOrOptS
  split <;> simp_all

theorem pyOrOptS_some_ne (v d : String) (h : v ≠ "") : pyOrOptS (some v) d = v := by
  simp [pyOrOptS, h]

theorem pyOrOptI_some_zero (v : Int) : pyOrOptI (some v) 0 = v := by
  unfold pyOrOptI
  split <;> simp_all

theorem orderMap_eq_none (order : List String) (tid : String) (h : tid ∉ order) :
    orderMap order tid = none := by
  induction order with
  | nil => rfl
  | cons a rest ih =>
      simp only [List.mem_cons, not_or] at h
      have ha : (a == tid) = false := by
        simp only [beq_eq_false_iff_ne]
        exact fun e => h.1 e.symm
      simp [orderMap, ih h.2, ha]

theorem orderMap_get (order : List String) (tid : String) (j : Nat)
    (hj : j < order.length) (hnd : order.Nodup)
    (hget : order.get ⟨j, hj⟩ = tid) :
    orderMap order tid = some j := by
  induction order generalizing j with
  | nil => simp at hj
  | cons a rest ih =>
      rcases List.nodup_cons.mp hnd with ⟨hna, hnd'⟩
      cases j with
      | zero =>
          have ha : a = tid := hget
          have hnot : tid ∉ rest := ha ▸ hna
          simp [orderMap, orderMap_eq_none rest tid hnot, ha]
      | succ k =>
          have hk : k < rest.length := Nat.lt_of_succ_lt_succ hj
          have : orderMap rest tid = some k := ih k hk hnd' hget
          simp [orderMap, this]

theorem orderMap_isSome_of_mem (order : List String) (tid : String)
    (h : tid ∈ order) : (orderMap order tid).isSome = true := by
  induction order with
  | nil => simp at h
  | cons a rest ih =>
      rcases List.mem_cons.mp h with ha | hr
      · rcases hm : orderMap rest tid with _ | k
        · simp [orderMap, hm, ha.symm]
        · simp [orderMap, hm]
      · rcases hm : orderMap rest tid with _ | k
        · have := ih hr
          simp [hm] at this
        · simp [orderMap, hm]

theorem orderMap_mem_lt (order : List String) (tid : String) (j : Nat)
    (h : orderMap order tid = some j) : j < order.length := by
  induction order generalizing j with
  | nil => simp [orderMap] at h
  | cons a rest ih =>
      simp only [orderMap] at h
      rcases hm : orderMap rest tid with _ | k
      · rw [hm] at h
        split at h <;> simp_all
        omega
      · rw [hm] at h
        simp only [Option.some.injEq] at h
        have := ih k hm
        simp only [List.length_cons]
        omega

/-! ## Claim theorems -/

/-- C4: if the metadata document of an uploaded restore archive does not parse
as the expected structured format (unparseable JSON), the restore fails with a
BadRequest (400) and the whole application state — in particular all three
entity tables — is left completely unchanged: the parse failure happens before
any state mutation. -/
theorem C4_parse_failure_leaves_tables_unchanged
    (st : AppState) (fn : String) (entries : List ZipEntry) (name : String)
    (now : Nat)
    (hfn : strEndsWith fn (".zip") = true)
    (hsel : selectBackupJson (entries.map ZipEntry.name) = some name)
    (hparse : zipReadJson entries name = none) :
    restore_db fn (some entries) now st =
      (st, .httpError 400 ("JSON parse failed")) := by
  simp [restore_db, hfn, hsel, hparse]

/-- C4 witness: a concrete archive whose metadata document is invalid JSON
leaves a concrete nonempty store untouched and yields 400. -/
theorem C4_witness :
    restore_db ("b.zip")
        (some [⟨"steplog_backup.json", .jsonDoc none⟩]) 0
        ⟨⟨[], [⟨1, "2025-06-01", "m", none, none, none, some false⟩], []⟩, []⟩ =
      (⟨⟨[], [⟨1, "2025-06-01", "m", none, none, none, some false⟩], []⟩, []⟩,
       .httpError 400 ("JSON parse failed")) :=
  C4_parse_failure_leaves_tables_unchanged _ _ _ ("steplog_backup.json") _
    (by decide) (by decide) (by decide)

/-- C7: `reorder` re-assigns `rank = position-in-list` to every pending item
whose id occurs in the submitted list, assigns the sentinel rank `10_000_000`
to every pending item whose id is absent (which therefore sorts after all
explicitly ordered items, the list being no longer than the sentinel), and
leaves non-pending items untouched; in particular `reorder ["b","a"]` on
pending set {a, b, c} yields the pending order b, a, then c, regardless of the
prior ranks. -/
theorem C7_reorder_semantics (todos : List Todo) (order : List String) :
    (reorder_todos order todos = todos.map (reorderItem order)) ∧
    (∀ t : Todo, t.status ≠ "pending" → reorderItem order t = t) ∧
    (∀ (t : Todo) (j : Nat) (hj : j < order.length), t.status = "pending" →
        order.Nodup → order.get ⟨j, hj⟩ = t.id →
        reorderItem order t = { t with order := Int.ofNat j }) ∧
    (∀ t : Todo, t.status = "pending" → t.id ∉ order →
        reorderItem order t = { t with order := 10000000 }) ∧
    (∀ t u : Todo, order.length ≤ 10000000 →
        t.status = "pending" → t.id ∈ order →
        u.status = "pending" → u.id ∉ order →
        (reorderItem order t).order < (reorderItem order u).order) ∧
    ((listPending ⟨[], [], reorder_todos ["b", "a"] c7store⟩).map Todo.id =
      ["b", "a", "c"]) := by
  refine ⟨rfl, ?_, ?_, ?_, ?_, by decide⟩
  · intro t ht
    have : (t.status == "pending") = false := by
      simpa [beq_eq_false_iff_ne] using ht
    simp [reorderItem, this]
  · intro t j hj hp hnd hget
    simp [reorderItem, hp, orderMap_get order t.id j hj hnd hget]
  · intro t hp hnot
    simp [reorderItem, hp, orderMap_eq_none order t.id hnot]
  · intro t u hlen hp hmem hup hunot
    have hu : (reorderItem order u).order = 10000000 := by
      simp [reorderItem, hup, orderMap_eq_none order u.id hunot]
    rcases hm : orderMap order t.id with _ | j
    · have := orderMap_isSome_of_mem order t.id hmem
      simp [hm] at this
    · have hlt : j < order.length := orderMap_mem_lt order t.id j hm
      have ht : (reorderItem order t).order = Int.ofNat j := by
        simp [reorderItem, hp, hm]
      rw [ht, hu]
      have : j < 10000000 := lt_of_lt_of_le hlt hlen
      simp only [Int.ofNat_eq_coe]
      exact_mod_cast this

/-- C7 witness: the sentinel branch of the reorder theorem at a concrete
pending item omitted from the submitted order. -/
theorem C7_witness :
    reorderItem ["b", "a"]
        { id := "c", date := "2025-06-01", title := "C", status := "pending",
          order := 9 } =
      { id := "c", date := "2025-06-01", title := "C", status := "pending",
        order := 10000000 } :=
  (C7_reorder_semantics [] ["b", "a"]).2.2.2.1
    { id := "c", date := "2025-06-01", title := "C", status := "pending",
      order := 9 } (by decide) (by decide)

/-- C10: the done and giveup transition endpoints raise NotFound (404) exactly
when the given id does not exist; otherwise they succeed from any current
status, setting the requested status on the addressed row while leaving its
id, rank, title, date (and the unused sort_index) unchanged and all other rows
untouched; repeating a transition is idempotent, and done→giveup /
giveup→done also succeed. -/
theorem C10_transition_semantics (todos : List Todo) (tid : String) :
    ((mark_todo_done tid todos = .error (404, "Todo not found")) ↔
      ∀ t ∈ todos, t.id ≠ tid) ∧
    ((mark_todo_giveup tid todos = .error (404, "Todo not found")) ↔
      ∀ t ∈ todos, t.id ≠ tid) ∧
    ((∃ t ∈ todos, t.id = tid) →
      mark_todo_done tid todos = .ok (todos.map (setTodoStatus ("done") tid)) ∧
      mark_todo_giveup tid todos =
        .ok (todos.map (setTodoStatus ("giveup") tid))) ∧
    (∀ (s : String) (t : Todo),
      (setTodoStatus s tid t).id = t.id ∧
      (setTodoStatus s tid t).order = t.order ∧
      (setTodoStatus s tid t).title = t.title ∧
      (setTodoStatus s tid t).date = t.date ∧
      (setTodoStatus s tid t).sort_index = t.sort_index) ∧
    (∀ t : Todo, t.id = tid → (setTodoStatus ("done") tid t).status = "done" ∧
      (setTodoStatus ("giveup") tid t).status = "giveup") ∧
    (∀ t : Todo, t.id ≠ tid → setTodoStatus ("done") tid t = t ∧
      setTodoStatus ("giveup") tid t = t) ∧
    (∀ (s s' : String) (t : Todo),
      setTodoStatus s tid (setTodoStatus s' tid t) = setTodoStatus s tid t) ∧
    ((∃ t ∈ todos, t.id = tid) →
      mark_todo_done tid (todos.map (setTodoStatus ("giveup") tid)) =
        .ok (todos.map (setTodoStatus ("done") tid)) ∧
      mark_todo_done tid (todos.map (setTodoStatus ("done") tid)) =
        .ok (todos.map (setTodoStatus ("done") tid))) := by
  have hany : (todos.any (fun t => t.id == tid) = true) ↔
      ∃ t ∈ todos, t.id = tid := by
    simp [List.any_eq_true]
  have hcomp : ∀ (s s' : String) (t : Todo),
      setTodoStatus s tid (setTodoStatus s' tid t) = setTodoStatus s tid t := by
    intro s s' t
    by_cases h : t.id = tid <;> simp [setTodoStatus, h]
  have hid : ∀ (s : String) (t : Todo), (setTodoStatus s tid t).id = t.id := by
    intro s t
    by_cases h : t.id = tid <;> simp [setTodoStatus, h]
  have hmapped : ∀ s : String, ((∃ t ∈ todos, t.id = tid) →
      ∃ t ∈ todos.map (setTodoStatus s tid), t.id = tid) := by
    intro s ⟨t, ht, he⟩
    exact ⟨setTodoStatus s tid t, List.mem_map_of_mem _ ht, (hid s t).trans he⟩
  refine ⟨?_, ?_, ?_, ?_, ?_, ?_, hcomp, ?_⟩
  · constructor
    · intro h t ht he
      have : todos.any (fun t => t.id == tid) = true := hany.mpr ⟨t, ht, he⟩
      simp [mark_todo_done, this] at h
    · intro h
      have : todos.any (fun t => t.id == tid) = false := by
        rcases ha : todos.any (fun t => t.id == tid) with _ | _
        · rfl
        · rcases hany.mp ha with ⟨t, ht, he⟩
          exact absurd he (h t ht)
      simp [mark_todo_done, this]
  · constructor
    · intro h t ht he
      have : todos.any (fun t => t.id == tid) = true := hany.mpr ⟨t, ht, he⟩
      simp [mark_todo_giveup, this] at h
    · intro h
      have : todos.any (fun t => t.id == tid) = false := by
        rcases ha : todos.any (fun t => t.id == tid) with _ | _
        · rfl
        · rcases hany.mp ha with ⟨t, ht, he⟩
          exact absurd he (h t ht)
      simp [mark_todo_giveup, this]
  · intro hex
    have : todos.any (fun t => t.id == tid) = true := hany.mpr hex
    exact ⟨by simp [mark_todo_done, this], by simp [mark_todo_giveup, this]⟩
  · intro s t
    by_cases h : t.id = tid <;> simp [setTodoStatus, h]
  · intro t h
    simp [setTodoStatus, h]
  · intro t h
    simp [setTodoStatus, h]
  · intro hex
    have hg := hmapped ("giveup") hex
    have hd := hmapped ("done") hex
    have hanyg : ((todos.map (setTodoStatus ("giveup") tid)).any
        (fun t => t.id == tid)) = true := by
      simp only [List.any_eq_true]
      rcases hg with ⟨t, ht, he⟩
      exact ⟨t, ht, by simp [he]⟩
    have hanyd : ((todos.map (setTodoStatus ("done") tid)).any
        (fun t => t.id == tid)) = true := by
      simp only [List.any_eq_true]
      rcases hd with ⟨t, ht, he⟩
      exact ⟨t, ht, by simp [he]⟩
    constructor
    · simp only [mark_todo_done, hanyg, if_true, List.map_map]
      congr 1
      exact List.map_congr_left (fun t _ => hcomp ("done") "giveup" t)
    · simp only [mark_todo_done, hanyd, if_true, List.map_map]
      congr 1
      exact List.map_congr_left (fun t _ => hcomp ("done") "done" t)

/-- C10 witness: transitioning a concrete giveup item to done succeeds and
only flips the status, and a missing id yields 404. -/
theorem C10_witness :
    (mark_todo_done ("g")
        [{ id := "g", date := "2025-06-01", title := "G", status := "giveup",
           order := 4 }] =
      .ok [{ id := "g", date := "2025-06-01", title := "G", status := "done",
             order := 4 }]) ∧
    (mark_todo_done ("missing")
        [{ id := "g", date := "2025-06-01", title := "G", status := "giveup",
           order := 4 }] =
      .error (404, "Todo not found")) := by
  constructor
  · have h := (C10_transition_semantics
      [{ id := "g", date := "2025-06-01", title := "G", status := "giveup",
         order := 4 }] "g").2.2.1
      ⟨_, List.mem_singleton_self _, rfl⟩
    rw [h.1]
    rfl
  · exact (C10_transition_semantics
      [{ id := "g", date := "2025-06-01", title := "G", status := "giveup",
         order := 4 }] "missing").1.mpr (by decide)

/-- C8: the schedule sort key is `(date, has_time_flag, hour, minute)`
ascending: an absent or blank time string yields secondary key 0 and sorts
before every timed item of the same date; a present time string is parsed as
`HH:MM`; a failed parse (wrong shape or non-numeric parts) is treated as
23:59 instead of being rejected, sorting last among the (well-formed) timed
items of that day; the given three-item scenario sorts as no-time, 09:00,
malformed. -/
theorem C8_schedule_sort_key_semantics (item : ScheduleItem)
    (d : Nat × Nat × Nat) (hd : parseIsoDate item.date = some d) :
    (timeStrOf item = "" → schedule_sort_key item = some (d, 0, 0, 0)) ∧
    (timeStrOf item ≠ "" → schedule_sort_key item =
      some (d, 1, (parseClockTime (timeStrOf item)).1,
        (parseClockTime (timeStrOf item)).2)) ∧
    (∀ (t hs ms : String) (h m : Int), pySplit t ':' = [hs, ms] →
      pyInt hs = some h → pyInt ms = some m → parseClockTime t = (h, m)) ∧
    (∀ t hs ms : String, pySplit t ':' = [hs, ms] →
      (pyInt hs = none ∨ pyInt ms = none) → parseClockTime t = (23, 59)) ∧
    (∀ t : String, (pySplit t ':').length ≠ 2 → parseClockTime t = (23, 59)) ∧
    (∀ h m : Int, skeyLt (d, 0, 0, 0) (d, 1, h, m)) ∧
    (∀ h m : Int, h ≤ 23 → m ≤ 59 → skeyLe (d, 1, h, m) (d, 1, 23, 59)) ∧
    (sortSchedule [c8Bad, c8Timed, c8NoTime] =
      some [c8NoTime, c8Timed, c8Bad]) := by
  refine ⟨?_, ?_, ?_, ?_, ?_, ?_, ?_, by decide⟩
  · intro h
    simp [schedule_sort_key, hd, h]
  · intro h
    simp [schedule_sort_key, hd, h]
  · intro t hs ms h m hsplit hh hm
    simp [parseClockTime, hsplit, hh, hm]
  · intro t hs ms hsplit hbad
    rcases hbad with hb | hb <;> simp [parseClockTime, hsplit, hb]
  · intro t hlen
    unfold parseClockTime
    rcases hsp : pySplit t ':' with _ | ⟨a, _ | ⟨b, _ | _⟩⟩ <;>
      simp_all
  · intro h m
    exact Or.inr ⟨rfl, Or.inl Nat.zero_lt_one⟩
  · intro h m hh hm
    rcases lt_or_eq_of_le hh with h23 | h23
    · exact Or.inl (Or.inr ⟨rfl, Or.inr ⟨rfl, Or.inl h23⟩⟩)
    · rcases lt_or_eq_of_le hm with m59 | m59
      · exact Or.inl (Or.inr ⟨rfl, Or.inr ⟨rfl, Or.inr ⟨h23, m59⟩⟩⟩)
      · exact Or.inr (by rw [h23, m59])

/-- C8 witness: the key facts at the concrete scenario items. -/
theorem C8_witness :
    schedule_sort_key c8NoTime = some ((2025, 6, 1), 0, 0, 0) ∧
    schedule_sort_key c8Timed = some ((2025, 6, 1), 1, 9, 0) ∧
    parseClockTime ("09:00") = (9, 0) ∧
    parseClockTime ("bad") = (23, 59) := by
  have h := C8_schedule_sort_key_semantics c8NoTime (2025, 6, 1) (by decide)
  refine ⟨h.1 (by decide), ?_, ?_, ?_⟩
  · have h2 := C8_schedule_sort_key_semantics c8Timed (2025, 6, 1) (by decide)
    rw [h2.2.1 (by decide)]
    decide
  · exact h.2.2.1 ("09:00") "09" "00" 9 0 (by decide) (by decide) (by decide)
  · exact h.2.2.2.2.1 ("bad") (by decide)

theorem strLe_refl (a : String) : strLe a a = true := by
  unfold strLe
  rw [strLt_irrefl]
  rfl

theorem strLe_of_lt (a b : String) (h : strLt a b = true) : strLe a b = true := by
  rw [strLe_eq_true_iff]
  rcases hba : strLt b a with _ | _
  · rfl
  · have := strLt_trans a b a h hba
    rw [strLt_irrefl] at this
    exact Bool.noConfusion this

theorem foldlMax_mem (c : String) (cs : List String) :
    cs.foldl (fun acc s => if strLt acc s then s else acc) c ∈ c :: cs := by
  induction cs generalizing c with
  | nil => simp [List.foldl_nil]
  | cons x xs ih =>
      simp only [List.foldl_cons]
      rcases List.mem_cons.mp (ih (if strLt c x then x else c)) with h | h
      · rcases hs : strLt c x with _ | _ <;> rw [hs] at h <;> simp at h <;>
          simp [h]
      · simp [List.mem_cons, h]

theorem foldlMax_ge (c : String) (cs : List String) :
    strLe c (cs.foldl (fun acc s => if strLt acc s then s else acc) c) = true ∧
    ∀ x ∈ cs,
      strLe x (cs.foldl (fun acc s => if strLt acc s then s else acc) c)
        = true := by
  induction cs generalizing c with
  | nil => exact ⟨strLe_refl c, by simp⟩
  | cons x xs ih =>
      simp only [List.foldl_cons]
      have hstep : strLe c (if strLt c x then x else c) = true ∧
          strLe x (if strLt c x then x else c) = true := by
        rcases hs : strLt c x with _ | _
        · exact ⟨by simp [hs, strLe_refl], by
            simp only [hs, Bool.false_eq_true, if_false]
            rw [strLe_eq_true_iff]
            exact hs⟩
        · exact ⟨by simp [hs, strLe_of_lt c x hs], by simp [hs, strLe_refl]⟩
      rcases ih (if strLt c x then x else c) with ⟨h1, h2⟩
      refine ⟨strLe_trans _ _ _ hstep.1 h1, ?_⟩
      intro y hy
      rcases List.mem_cons.mp hy with rfl | hmem
      · exact strLe_trans _ _ _ hstep.2 h1
      · exact h2 y hmem

/-- C3 counterexample: an archive containing several dated candidates AND the
legacy name — the code selects the legacy `steplog_backup.json`, not the
newest dated candidate, so the claimed preference order is refuted. -/
theorem C3_counterexample :
    selectBackupJson
        ["steplog_backup_20240101.json", "steplog_backup_20250101.json",
         "steplog_backup.json"] = some ("steplog_backup.json") ∧
    some ("steplog_backup.json" : String) ≠
      some ("steplog_backup_20250101.json" : String) :=
  ⟨by decide, by decide⟩

/-- C3 amended: the metadata-document selection prefers the fixed legacy
filename whenever it is present; only otherwise does it collect the entries
matching `steplog_backup_*.json` and pick the lexicographically greatest name
(which is the newest embedded capture date for names in the dated pattern);
when neither exists, the restore fails with the "no recognized backup
document" error (400) before mutating any state. -/
theorem C3_document_selection (entries : List ZipEntry) (st : AppState)
    (fn : String) (now : Nat) :
    ("steplog_backup.json" ∈ entries.map ZipEntry.name →
      selectBackupJson (entries.map ZipEntry.name) =
        some ("steplog_backup.json")) ∧
    ("steplog_backup.json" ∉ entries.map ZipEntry.name →
      ∀ c ∈ entries.map ZipEntry.name,
        strStartsWith c ("steplog_backup_") = true →
        strEndsWith c (".json") = true →
        ∃ sel, selectBackupJson (entries.map ZipEntry.name) = some sel ∧
          sel ∈ entries.map ZipEntry.name ∧
          strStartsWith sel ("steplog_backup_") = true ∧
          strEndsWith sel (".json") = true ∧
          ∀ c2 ∈ entries.map ZipEntry.name,
            strStartsWith c2 ("steplog_backup_") = true →
            strEndsWith c2 (".json") = true → strLe c2 sel = true) ∧
    (strEndsWith fn (".zip") = true →
      selectBackupJson (entries.map ZipEntry.name) = none →
      restore_db fn (some entries) now st =
        (st, .httpError 400 ("no recognized backup document"))) := by
  refine ⟨?_, ?_, ?_⟩
  · intro h
    simp [selectBackupJson, h]
  · intro hno c hc hs he
    have hcf : c ∈ (entries.map ZipEntry.name).filter (fun n =>
        strStartsWith n ("steplog_backup_") && strEndsWith n (".json")) :=
      List.mem_filter.mpr ⟨hc, by simp [hs, he]⟩
    unfold selectBackupJson
    rw [if_neg hno]
    rcases hf : (entries.map ZipEntry.name).filter (fun n =>
        strStartsWith n ("steplog_backup_") && strEndsWith n (".json")) with
      _ | ⟨c0, cs⟩
    · rw [hf] at hcf
      exact absurd hcf (List.not_mem_nil c)
    · have hselmem :
          cs.foldl (fun acc s => if strLt acc s then s else acc) c0 ∈
            c0 :: cs := foldlMax_mem c0 cs
      rw [← hf] at hselmem
      have hprops := List.mem_filter.mp hselmem
      refine ⟨_, rfl, hprops.1, ?_, ?_, ?_⟩
      · have := hprops.2
        simp at this
        exact this.1
      · have := hprops.2
        simp at this
        exact this.2
      · intro c2 hc2 hs2 he2
        have hc2f : c2 ∈ (entries.map ZipEntry.name).filter (fun n =>
            strStartsWith n ("steplog_backup_") && strEndsWith n (".json")) :=
          List.mem_filter.mpr ⟨hc2, by simp [hs2, he2]⟩
        rw [hf] at hc2f
        rcases List.mem_cons.mp hc2f with rfl | hmem
        · exact (foldlMax_ge c2 cs).1
        · exact (foldlMax_ge c0 cs).2 c2 hmem
  · intro hfn hnone
    simp [restore_db, hfn, hnone]

/-- C3 witness: the legacy-preference branch at a concrete archive that also
contains a dated candidate. -/
theorem C3_witness :
    selectBackupJson
        (([⟨"steplog_backup.json", .jsonDoc none⟩,
           ⟨"steplog_backup_20250101.json", .jsonDoc none⟩] :
          List ZipEntry).map ZipEntry.name) = some ("steplog_backup.json") :=
  (C3_document_selection
      [⟨"steplog_backup.json", .jsonDoc none⟩,
       ⟨"steplog_backup_20250101.json", .jsonDoc none⟩]
      ⟨⟨[], [], []⟩, []⟩ "x.zip" 0).1 (by decide)

/-- C1 counterexample: restoring an archive whose todo records collide on the
primary key raises during the re-insertion phase (reported as a 500 restore
failure), yet the pre-existing schedule row is gone afterwards — the
deletions were committed separately, so the destructive phase is NOT a single
rolled-back transaction. -/
theorem C1_counterexample :
    (restore_db ("b.zip")
        (some [⟨"steplog_backup.json", .jsonDoc (some c1data)⟩]) 0
        ⟨c1db, []⟩).2 = .httpError 500 ("DB restore error") ∧
    (restore_db ("b.zip")
        (some [⟨"steplog_backup.json", .jsonDoc (some c1data)⟩]) 0
        ⟨c1db, []⟩).1.db ≠ c1db :=
  ⟨by decide, by decide⟩

/-- C1 amended: the destructive phase runs as two transactions — the
deletion of all rows of the three entity tables is committed first, then the
re-insertions are committed; if an exception occurs during re-insertion, only
the insertion transaction is rolled back and a single aggregated restore-
failed (500) error is reported, after which all three entity tables are
visibly empty (the committed deletions persist). -/
theorem C1_delete_commit_precedes_reinsertion (st : AppState) (fn : String)
    (entries : List ZipEntry) (name : String) (data : BackupData) (now : Nat)
    (hfn : strEndsWith fn (".zip") = true)
    (hsel : selectBackupJson (entries.map ZipEntry.name) = some name)
    (hread : zipReadJson entries name = some data)
    (hfail : ¬ restoreTodosValid data.todos) :
    restore_db fn (some entries) now st =
      ({ st with db := { diaries := [], schedules := [], todos := [] } },
       .httpError 500 ("DB restore error")) := by
  simp [restore_db, hfn, hsel, hread, restorePhase, hfail]

/-- C1 witness: the amended behaviour at the concrete duplicate-id archive. -/
theorem C1_witness :
    restore_db ("b.zip")
        (some [⟨"steplog_backup.json", .jsonDoc (some c1data)⟩]) 0
        ⟨c1db, []⟩ =
      (⟨⟨[], [], []⟩, []⟩, .httpError 500 ("DB restore error")) :=
  C1_delete_commit_precedes_reinsertion ⟨c1db, []⟩ "b.zip"
    [⟨"steplog_backup.json", .jsonDoc (some c1data)⟩] "steplog_backup.json"
    c1data 0 (by decide) (by decide) (by decide) (by decide)

/-- C9 counterexample: a stored row with the non-enum status `"weird"`.  The
`load_todos` read path returns it coerced to pending, but the `/todos` page
read paths return it nowhere: it appears in neither the pending list nor the
history query, instead of being coerced to pending — so not every read path
coerces. -/
theorem C9_counterexample :
    load_todos ⟨[], [], [c9weird]⟩ =
      [{ id := "x", date := "2025-06-01", title := "T",
         status := "pending" }] ∧
    listPending ⟨[], [], [c9weird]⟩ = [] ∧
    historyFiltered none none ("all") ⟨[], [], [c9weird]⟩ = [] :=
  ⟨by decide, by decide, by decide⟩

/-- C9 amended: the status coercion to the closed enum happens only on the
`load_todos` read path (every returned status is in the enum, and a row with
a non-enum status is returned with status `"pending"`); the `/todos` page
read paths instead filter on exact status values, so a row with a non-enum
status is omitted from both the pending list and the history query rather
than coerced. -/
theorem C9_coercion_only_on_load_todos (db : DB) :
    (∀ item ∈ load_todos db,
      item.status = "pending" ∨ item.status = "done" ∨
        item.status = "giveup") ∧
    (∀ t ∈ db.todos,
      ({ id := t.id, date := t.date, title := t.title,
         status := coerceStatus t.status } : TodoItem) ∈ load_todos db) ∧
    (∀ s : String, s ≠ "pending" → s ≠ "done" → s ≠ "giveup" →
      coerceStatus s = "pending") ∧
    (∀ t ∈ db.todos, t.status ≠ "pending" → t ∉ listPending db) ∧
    (∀ t ∈ db.todos, ∀ (startQ endQ : Option String) (hs : String),
      t.status ≠ "done" → t.status ≠ "giveup" →
      t ∉ historyFiltered startQ endQ hs db) := by
  have hcoerce : ∀ s : String,
      coerceStatus s = "pending" ∨ coerceStatus s = "done" ∨
        coerceStatus s = "giveup" := by
    intro s
    unfold coerceStatus
    by_cases hb : (pyOrS s ("pending") == "pending" ||
        pyOrS s ("pending") == "done" ||
        pyOrS s ("pending") == "giveup") = true
    · rw [if_pos hb]
      simp only [Bool.or_eq_true, beq_iff_eq] at hb
      tauto
    · rw [if_neg hb]
      exact Or.inl rfl
  refine ⟨?_, ?_, ?_, ?_, ?_⟩
  · intro item hitem
    rcases List.mem_map.mp hitem with ⟨row, _, hrow⟩
    have := hcoerce row.status
    rw [← hrow]
    simpa using this
  · intro t ht
    have hsorted : t ∈ List.insertionSort loadTodosLe db.todos :=
      (List.perm_insertionSort loadTodosLe db.todos).mem_iff.mpr ht
    exact List.mem_map.mpr ⟨t, hsorted, rfl⟩
  · intro s h1 h2 h3
    unfold coerceStatus
    by_cases he : s = ""
    · subst he
      simp [pyOrS]
    · have hp : pyOrS s ("pending") = s := by simp [pyOrS, he]
      rw [hp, if_neg (by simp [h1, h2, h3])]
  · intro t _ hne hmem
    unfold listPending at hmem
    have := (List.perm_insertionSort pendingLe _).mem_iff.mp hmem
    have hp := List.mem_filter.mp this
    exact hne (by simpa using hp.2)
  · intro t _ startQ endQ hs h1 h2 hmem
    unfold historyFiltered at hmem
    have hmem2 := (List.perm_insertionSort historyLe _).mem_iff.mp hmem
    have hbase : t ∈ db.todos.filter (fun t =>
        t.status == "done" || t.status == "giveup") := by
      have step3 : ∀ {l : List Todo},
          t ∈ (if pyOrS hs ("all") = "done" then
                 l.filter (fun t => t.status == "done")
               else if pyOrS hs ("all") = "giveup" then
                 l.filter (fun t => t.status == "giveup")
               else l) → t ∈ l := by
        intro l h
        split at h
        · exact (List.mem_filter.mp h).1
        · split at h
          · exact (List.mem_filter.mp h).1
          · exact h
      have step2 : ∀ {l : List Todo},
          t ∈ (match endQ with
               | none => l
               | some e =>
                   match parseIsoDate e with
                   | some _ => l.filter (fun t => strLe t.date e)
                   | none => l) → t ∈ l := by
        intro l h
        split at h
        · exact h
        · split at h
          · exact (List.mem_filter.mp h).1
          · exact h
      have step1 : ∀ {l : List Todo},
          t ∈ (match startQ with
               | none => l
               | some s =>
                   match parseIsoDate s with
                   | some _ => l.filter (fun t => strLe s t.date)
                   | none => l) → t ∈ l := by
        intro l h
        split at h
        · exact h
        · split at h
          · exact (List.mem_filter.mp h).1
          · exact h
      exact step1 (step2 (step3 hmem2))
    have := (List.mem_filter.mp hbase).2
    simp at this
    rcases this with h | h
    · exact h1 h
    · exact h2 h

/-- C9 witness: the amended behaviour at the concrete store holding the
non-enum row. -/
theorem C9_witness :
    ({ id := "x", date := "2025-06-01", title := "T",
       status := coerceStatus ("weird") } : TodoItem) ∈
      load_todos ⟨[], [], [c9weird]⟩ ∧
    c9weird ∉ listPending ⟨[], [], [c9weird]⟩ ∧
    c9weird ∉ historyFiltered none none ("all") ⟨[], [], [c9weird]⟩ := by
  have h := C9_coercion_only_on_load_todos ⟨[], [], [c9weird]⟩
  exact ⟨h.2.1 c9weird (by decide),
    h.2.2.2.1 c9weird (by decide) (by decide),
    h.2.2.2.2 c9weird (by decide) none none ("all") (by decide) (by decide)⟩

/-- C6 counterexample: a reachable store (create b, create a, reorder [])
whose two pending rows tie on rank (the sentinel) and on date; `listPending`
returns them in storage order b, a — not sorted by the claimed
`(rank, date, id)` key, which would put a first.  So id is not a tiebreak. -/
theorem C6_counterexample :
    (listPending ⟨[], [], c6store⟩).map Todo.id = ["b", "a"] ∧
    ¬ (listPending ⟨[], [], c6store⟩).Pairwise rankDateIdLe :=
  ⟨by decide, by decide⟩

/-- C6 amended: `listPending` returns exactly the pending rows, sorted
ascending by `(rank, then date)`; ties beyond that keep the store order —
there is no id tiebreak. -/
theorem C6_listPending_sorted_rank_date (db : DB) :
    (∀ t ∈ listPending db, t.status = "pending") ∧
    (listPending db).Perm
      (db.todos.filter (fun t => t.status == "pending")) ∧
    (listPending db).Pairwise pendingLe := by
  refine ⟨?_, List.perm_insertionSort pendingLe _, ?_⟩
  · intro t hmem
    have := (List.perm_insertionSort pendingLe _).mem_iff.mp hmem
    simpa using (List.mem_filter.mp this).2
  · haveI : IsTotal Todo pendingLe := ⟨pendingLe_total⟩
    haveI : IsTrans Todo pendingLe := ⟨pendingLe_trans⟩
    exact List.sorted_insertionSort pendingLe _

/-- C6 witness: the amended statement applied at the concrete tied store. -/
theorem C6_witness :
    ({ id := "b", date := "2025-06-01", title := "B", status := "pending",
       order := 10000000 } : Todo).status = "pending" :=
  (C6_listPending_sorted_rank_date ⟨[], [], c6store⟩).1
    { id := "b", date := "2025-06-01", title := "B", status := "pending",
      order := 10000000 } (by decide)

theorem reorderItem_id (order : List String) (t : Todo) :
    (reorderItem order t).id = t.id := by
  unfold reorderItem
  split <;> rfl

theorem reorderItem_status (order : List String) (t : Todo) :
    (reorderItem order t).status = t.status := by
  unfold reorderItem
  split <;> rfl

theorem reorderItem_order_pending (order : List String) (t : Todo)
    (h : t.status = "pending") :
    (reorderItem order t).order =
      match orderMap order t.id with
      | some idx => Int.ofNat idx
      | none => 10000000 := by
  unfold reorderItem
  rw [if_pos (by simp [h])]

theorem orderMap_get_of_eq (order : List String) (tid : String) (j : Nat)
    (h : orderMap order tid = some j) :
    ∃ hj : j < order.length, order.get ⟨j, hj⟩ = tid := by
  induction order generalizing j with
  | nil => simp [orderMap] at h
  | cons a rest ih =>
      rcases hm : orderMap rest tid with _ | k
      · have hh : orderMap (a :: rest) tid =
            if (a == tid) = true then some 0 else none := by
          simp [orderMap, hm]
        rw [hh] at h
        by_cases hat : (a == tid) = true
        · rw [if_pos hat] at h
          have hj : j = 0 := (Option.some.inj h).symm
          subst hj
          exact ⟨by simp, by simpa [beq_iff_eq] using hat⟩
        · rw [if_neg hat] at h
          exact absurd h (by simp)
      · have hh : orderMap (a :: rest) tid = some (k + 1) := by
          simp [orderMap, hm]
        rw [hh] at h
        have hj : j = k + 1 := (Option.some.inj h).symm
        subst hj
        rcases ih k hm with ⟨hk, hget⟩
        exact ⟨by simpa using Nat.succ_lt_succ hk, by simpa using hget⟩

theorem setTodoStatus_id (s tid : String) (t : Todo) :
    (setTodoStatus s tid t).id = t.id := by
  unfold setTodoStatus
  split <;> rfl

theorem setTodoStatus_pending_eq (s tid : String) (t : Todo)
    (hs : s ≠ "pending") (hp : (setTodoStatus s tid t).status = "pending") :
    setTodoStatus s tid t = t := by
  unfold setTodoStatus at hp ⊢
  by_cases h : (t.id == tid) = true
  · rw [if_pos h] at hp
    exact absurd hp hs
  · rw [if_neg h]

theorem markResult_eq (tid : String) (todos : List Todo) :
    ((mark_todo_done tid todos).toOption.getD todos = todos ∨
      (mark_todo_done tid todos).toOption.getD todos =
        todos.map (setTodoStatus ("done") tid)) ∧
    ((mark_todo_giveup tid todos).toOption.getD todos = todos ∨
      (mark_todo_giveup tid todos).toOption.getD todos =
        todos.map (setTodoStatus ("giveup") tid)) := by
  constructor
  · unfold mark_todo_done
    split
    · exact Or.inr rfl
    · exact Or.inl rfl
  · unfold mark_todo_giveup
    split
    · exact Or.inr rfl
    · exact Or.inl rfl

theorem storeInv_create (todos : List Todo) (newId today title : String)
    (hfresh : ∀ t ∈ todos, t.id ≠ newId) (hinv : StoreInv todos) :
    StoreInv (create_todo newId today title todos) := by
  unfold create_todo StoreInv
  rw [List.pairwise_append]
  refine ⟨hinv, List.pairwise_singleton _ _, ?_⟩
  intro a ha b hb
  rw [List.mem_singleton] at hb
  subst hb
  refine ⟨hfresh a ha, ?_⟩
  intro hap _ heq
  exfalso
  have hmem : a.order ∈
      (todos.filter (fun t => t.status == "pending")).map
        (fun t => t.order) :=
    List.mem_map_of_mem _ (List.mem_filter.mpr ⟨ha, by simp [hap]⟩)
  rcases hM : maxPendingOrder todos with _ | M
  · unfold maxPendingOrder at hM
    rw [List.max?_eq_none_iff] at hM
    rw [hM] at hmem
    exact List.not_mem_nil a.order hmem
  · have hle : ∀ b ∈ (todos.filter (fun t => t.status == "pending")).map
        (fun t => t.order), b ≤ M := by
      have := List.max?_le_iff (fun a b c => max_le_iff) hM (x := M)
      exact this.mp le_rfl
    have : a.order ≤ M := hle a.order hmem
    simp only [hM, pyOrOptI_some_zero] at heq
    omega

theorem storeInv_reorder (todos : List Todo) (order : List String)
    (hinv : StoreInv todos) : StoreInv (reorder_todos order todos) := by
  unfold reorder_todos StoreInv
  rw [List.pairwise_map]
  apply hinv.imp
  intro a b hab
  refine ⟨by simpa [reorderItem_id] using hab.1, ?_⟩
  intro hap hbp heq
  have hap2 : a.status = "pending" := by
    rwa [reorderItem_status] at hap
  have hbp2 : b.status = "pending" := by
    rwa [reorderItem_status] at hbp
  rw [reorderItem_order_pending order a hap2] at heq ⊢
  rw [reorderItem_order_pending order b hbp2] at heq
  rcases hma : orderMap order a.id with _ | i
  · rfl
  · rw [hma] at heq
    rcases hmb : orderMap order b.id with _ | j
    · rw [hmb] at heq
      exact heq
    · exfalso
      rw [hmb] at heq
      have hint : Int.ofNat i = Int.ofNat j := heq
      have hij : i = j := Int.ofNat.inj hint
      subst hij
      rcases orderMap_get_of_eq order a.id i hma with ⟨hia, hga⟩
      rcases orderMap_get_of_eq order b.id i hmb with ⟨hib, hgb⟩
      exact hab.1 (hga ▸ hgb ▸ rfl)

theorem storeInv_setStatus (todos : List Todo) (s tid : String)
    (hs : s ≠ "pending") (hinv : StoreInv todos) :
    StoreInv (todos.map (setTodoStatus s tid)) := by
  unfold StoreInv
  rw [List.pairwise_map]
  apply hinv.imp
  intro a b hab
  constructor
  · simpa [setTodoStatus_id] using hab.1
  · intro hap hbp heq
    have ha := setTodoStatus_pending_eq s tid a hs hap
    have hb := setTodoStatus_pending_eq s tid b hs hbp
    rw [ha] at hap heq ⊢
    rw [hb] at hbp heq
    exact hab.2 hap hbp heq

theorem idsFrom_weaken (uuid : Nat → String) (n n2 : Nat)
    (todos : List Todo) (h : IdsFrom uuid n todos) (hn : n ≤ n2) :
    IdsFrom uuid n2 todos := by
  intro t ht
  rcases h t ht with ⟨m, hm, he⟩
  exact ⟨m, lt_of_lt_of_le hm hn, he⟩

theorem applyOp_inv (uuid : Nat → String) (hinj : Function.Injective uuid)
    (st : List Todo × Nat) (op : TodoOp)
    (h : IdsFrom uuid st.2 st.1 ∧ StoreInv st.1) :
    IdsFrom uuid (applyOp uuid st op).2 (applyOp uuid st op).1 ∧
    StoreInv (applyOp uuid st op).1 := by
  rcases h with ⟨hids, hinv⟩
  rcases op with ⟨title, today⟩ | order | tid | tid
  · simp only [applyOp]
    constructor
    · intro t ht
      unfold create_todo at ht
      rcases List.mem_append.mp ht with hold | hnew
      · rcases hids t hold with ⟨m, hm, he⟩
        exact ⟨m, Nat.lt_succ_of_lt hm, he⟩
      · rw [List.mem_singleton] at hnew
        exact ⟨st.2, Nat.lt_succ_self _, by rw [hnew]⟩
    · apply storeInv_create _ _ _ _ ?_ hinv
      intro t ht he
      rcases hids t ht with ⟨m, hm, hme⟩
      have : uuid m = uuid st.2 := by rw [← hme, he]
      exact absurd (hinj this) (Nat.ne_of_lt hm)
  · simp only [applyOp]
    constructor
    · intro t ht
      unfold reorder_todos at ht
      rcases List.mem_map.mp ht with ⟨u, hu, he⟩
      rcases hids u hu with ⟨m, hm, hme⟩
      exact ⟨m, hm, by rw [← he, reorderItem_id, hme]⟩
    · exact storeInv_reorder _ _ hinv
  · rcases (markResult_eq tid st.1).1 with he | he
    · rw [applyOp, he]
      exact ⟨hids, hinv⟩
    · rw [applyOp, he]
      constructor
      · intro t ht
        rcases List.mem_map.mp ht with ⟨u, hu, hue⟩
        rcases hids u hu with ⟨m, hm, hme⟩
        exact ⟨m, hm, by rw [← hue, setTodoStatus_id, hme]⟩
      · exact storeInv_setStatus _ _ _ (by decide) hinv
  · rcases (markResult_eq tid st.1).2 with he | he
    · rw [applyOp, he]
      exact ⟨hids, hinv⟩
    · rw [applyOp, he]
      constructor
      · intro t ht
        rcases List.mem_map.mp ht with ⟨u, hu, hue⟩
        rcases hids u hu with ⟨m, hm, hme⟩
        exact ⟨m, hm, by rw [← hue, setTodoStatus_id, hme]⟩
      · exact storeInv_setStatus _ _ _ (by decide) hinv

theorem runOps_inv (uuid : Nat → String) (hinj : Function.Injective uuid)
    (ops : List TodoOp) :
    IdsFrom uuid (runOps uuid ops).2 (runOps uuid ops).1 ∧
    StoreInv (runOps uuid ops).1 := by
  unfold runOps
  suffices h : ∀ st : List Todo × Nat,
      IdsFrom uuid st.2 st.1 ∧ StoreInv st.1 →
      IdsFrom uuid (List.foldl (applyOp uuid) st ops).2
          (List.foldl (applyOp uuid) st ops).1 ∧
        StoreInv (List.foldl (applyOp uuid) st ops).1 by
    refine h ([], 0) ⟨?_, List.Pairwise.nil⟩
    intro t ht
    exact absurd ht (List.not_mem_nil t)
  induction ops with
  | nil => intro st h; exact h
  | cons op rest ih =>
      intro st h
      exact ih (applyOp uuid st op) (applyOp_inv uuid hinj st op h)

/-- C5 counterexample: from the empty store, create two items and reorder
with both omitted: both pending rows end at the sentinel rank 10_000_000, so
`listPending` is NOT strictly ascending in rank and ranks are duplicated. -/
theorem C5_counterexample :
    ((listPending ⟨[], [],
        (runOps c5uuid [.create ("a") "2025-06-01", .create ("b") "2025-06-01",
          .reorder []]).1⟩).map
      (fun t => t.order)) = [10000000, 10000000] ∧
    ¬ ((listPending ⟨[], [],
        (runOps c5uuid [.create ("a") "2025-06-01", .create ("b") "2025-06-01",
          .reorder []]).1⟩).Pairwise
      (fun a b : Todo => a.order < b.order)) :=
  ⟨by decide, by decide⟩

/-- C5 amended: for every sequence of create/reorder/transition operations
from the empty store (ids drawn from an injective uuid generator),
`listPending()` returns items in ascending — not necessarily strictly
ascending — rank order, and any rank value shared by two distinct pending
items is exactly the sentinel 10_000_000 assigned to items omitted from a
reorder. -/
theorem C5_pending_ranks_ascending_with_sentinel_ties (uuid : Nat → String)
    (hinj : Function.Injective uuid) (ops : List TodoOp) :
    ((listPending ⟨[], [], (runOps uuid ops).1⟩).Pairwise pendingLe) ∧
    ((listPending ⟨[], [], (runOps uuid ops).1⟩).Pairwise
      (fun a b => a.order = b.order → a.order = 10000000)) := by
  constructor
  · haveI : IsTotal Todo pendingLe := ⟨pendingLe_total⟩
    haveI : IsTrans Todo pendingLe := ⟨pendingLe_trans⟩
    exact List.sorted_insertionSort pendingLe _
  · have hinv := (runOps_inv uuid hinj ops).2
    have hfil : ((runOps uuid ops).1.filter
        (fun t => t.status == "pending")).Pairwise
        (fun a b : Todo => a.id ≠ b.id ∧
          (a.status = "pending" → b.status = "pending" →
            a.order = b.order → a.order = 10000000)) :=
      hinv.sublist (List.filter_sublist _)
    have hfil2 : ((runOps uuid ops).1.filter
        (fun t => t.status == "pending")).Pairwise
        (fun a b : Todo => a.order = b.order → a.order = 10000000) := by
      refine hfil.imp_of_mem ?_
      intro a b ha hb hab
      exact hab.2 (by simpa using (List.mem_filter.mp ha).2)
        (by simpa using (List.mem_filter.mp hb).2)
    have hsym : ∀ {x y : Todo},
        (x.order = y.order → x.order = 10000000) →
        (y.order = x.order → y.order = 10000000) := by
      intro x y h e
      rw [e]
      exact h e.symm
    exact ((List.perm_insertionSort pendingLe _).pairwise_iff hsym).mpr hfil2

/-- C5 witness: the amended statement at a concrete operation sequence with a
concrete injective uuid generator. -/
theorem C5_witness :
    ((listPending ⟨[], [],
        (runOps c5uuid [TodoOp.create ("a") "2025-06-01",
          TodoOp.reorder []]).1⟩).Pairwise pendingLe) ∧
    ((listPending ⟨[], [],
        (runOps c5uuid [TodoOp.create ("a") "2025-06-01",
          TodoOp.reorder []]).1⟩).Pairwise
      (fun a b => a.order = b.order → a.order = 10000000)) :=
  C5_pending_ranks_ascending_with_sentinel_ties c5uuid
    (fun a b h => by
      have := congrArg (fun s : String => s.data.length) h
      simpa [c5uuid] using this)
    [TodoOp.create ("a") "2025-06-01", TodoOp.reorder []]

theorem datedName_ne_legacy (t : String) :
    "steplog_backup_" ++ t ++ ".json" ≠ "steplog_backup.json" := by
  intro h
  have hd := congrArg (fun s : String => s.data.take 15) h
  simp only [String.data_append, List.append_assoc] at hd
  rw [List.take_left' (by decide : ("steplog_backup_".data).length = 15)] at hd
  exact absurd hd (by decide)

theorem uploadsName_ne_legacy (k : String) :
    "uploads/" ++ k ≠ "steplog_backup.json" := by
  intro h
  have hd := congrArg (fun s : String => s.data.take 8) h
  simp only [String.data_append] at hd
  rw [List.take_left' (by decide : ("uploads/".data).length = 8)] at hd
  exact absurd hd (by decide)

theorem datedName_isCandidate (t : String) :
    strStartsWith ("steplog_backup_" ++ t ++ ".json") "steplog_backup_"
        = true ∧
    strEndsWith ("steplog_backup_" ++ t ++ ".json") ".json" = true := by
  constructor
  · unfold strStartsWith
    rw [ List.isPrefixOf_iff_prefix]
    simp only [String.data_append, List.append_assoc]
    exact List.prefix_append _ _
  · unfold strEndsWith
    rw [List.isSuffixOf_iff_suffix]
    simp only [String.data_append]
    exact List.suffix_append _ _

theorem uploadsName_not_candidate (k : String) :
    strStartsWith ("uploads/" ++ k) "steplog_backup_" = false := by
  unfold strStartsWith
  rw [Bool.eq_false_iff]
  intro hpre
  rw [ List.isPrefixOf_iff_prefix] at hpre
  simp only [String.data_append, List.cons_append] at hpre
  rw [List.cons_prefix_cons] at hpre
  exact absurd hpre.1 (by decide)

theorem datedName_not_uploads (t : String) :
    strStartsWith ("steplog_backup_" ++ t ++ ".json") "uploads/" = false := by
  unfold strStartsWith
  rw [Bool.eq_false_iff]
  intro hpre
  rw [ List.isPrefixOf_iff_prefix] at hpre
  simp only [String.data_append, List.append_assoc, List.cons_append] at hpre
  rw [List.cons_prefix_cons] at hpre
  exact absurd hpre.1 (by decide)

theorem uploadsName_isUploads (k : String) :
    strStartsWith ("uploads/" ++ k) "uploads/" = true := by
  unfold strStartsWith
  rw [ List.isPrefixOf_iff_prefix]
  simp only [String.data_append]
  exact List.prefix_append _ _

theorem uploadsName_ne_dated (k t : String) :
    "uploads/" ++ k ≠ "steplog_backup_" ++ t ++ ".json" := by
  intro h
  have h1 := uploadsName_not_candidate k
  rw [h, (datedName_isCandidate t).1] at h1
  exact Bool.noConfusion h1

theorem uploadsName_drop (k : String) :
    (⟨("uploads/" ++ k).data.drop 8⟩ : String) = k := by
  apply String.ext
  show ("uploads/" ++ k).data.drop 8 = k.data
  simp only [String.data_append]
  exact List.drop_left' (by decide : ("uploads/".data).length = 8)

theorem uploadsName_inj (k k2 : String)
    (h : "uploads/" ++ k = "uploads/" ++ k2) : k = k2 := by
  have := congrArg String.data h
  simp only [String.data_append] at this
  exact String.ext (List.append_cancel_left this)

theorem backup_names (todayStr : String) (db : DB) (uploads : Dir) :
    (backup_db todayStr db uploads).map ZipEntry.name =
      ("steplog_backup_" ++ todayStr ++ ".json") ::
        uploads.map (fun e => "uploads/" ++ e.1) := by
  unfold backup_db
  simp [List.map_map, Function.comp]

theorem backup_select (todayStr : String) (db : DB) (uploads : Dir) :
    selectBackupJson ((backup_db todayStr db uploads).map ZipEntry.name) =
      some ("steplog_backup_" ++ todayStr ++ ".json") := by
  rw [backup_names]
  unfold selectBackupJson
  rw [if_neg ?hno]
  case hno =>
    intro hmem
    rcases List.mem_cons.mp hmem with he | hm
    · exact datedName_ne_legacy todayStr he.symm
    · rcases List.mem_map.mp hm with ⟨e, _, he⟩
      exact uploadsName_ne_legacy e.1 he
  have hfil : (("steplog_backup_" ++ todayStr ++ ".json") ::
      uploads.map (fun e => "uploads/" ++ e.1)).filter (fun n =>
        strStartsWith n ("steplog_backup_") && strEndsWith n (".json")) =
      [("steplog_backup_" ++ todayStr ++ ".json")] := by
    rw [List.filter_cons_of_pos (by
      simp [(datedName_isCandidate todayStr).1,
        (datedName_isCandidate todayStr).2])]
    rw [List.filter_eq_nil_iff.mpr ?hnone]
    case hnone =>
      intro n hn
      rcases List.mem_map.mp hn with ⟨e, _, he⟩
      simp [← he, uploadsName_not_candidate e.1]
  rw [hfil]
  rfl

theorem backup_read (todayStr : String) (db : DB) (uploads : Dir) :
    zipReadJson (backup_db todayStr db uploads)
        ("steplog_backup_" ++ todayStr ++ ".json") =
      some (serializeDB db) := by
  unfold zipReadJson backup_db
  rw [List.reverse_cons, List.find?_append]
  have hnone : (uploads.map (fun e =>
      ({ name := "uploads/" ++ e.1, payload := e.2 } : ZipEntry))).reverse.find?
        (fun e => e.name == "steplog_backup_" ++ todayStr ++ ".json")
      = none := by
    rw [List.find?_eq_none]
    intro x hx
    rw [List.mem_reverse] at hx
    rcases List.mem_map.mp hx with ⟨e, _, he⟩
    simp only [← he, beq_iff_eq]
    exact uploadsName_ne_dated e.1 todayStr
  rw [hnone]
  simp

theorem restore_serialized_diaries (now : Nat) (i : Nat) (ds : List Diary)
    (htags : ∀ d ∈ ds, d.tags.isSome = true)
    (hcre : ∀ d ∈ ds, d.created_at.isSome = true) :
    restoreDiariesFrom now i (ds.map serialize_diary) =
      reindexDiaries i ds := by
  induction ds generalizing i with
  | nil => rfl
  | cons d rest ih =>
      simp only [List.map_cons, restoreDiariesFrom, reindexDiaries]
      congr 1
      · rcases htg : d.tags with _ | tg
        · have := htags d (List.mem_cons_self d rest)
          rw [htg] at this
          exact absurd this (by simp)
        · rcases hcr : d.created_at with _ | cr
          · have := hcre d (List.mem_cons_self d rest)
            rw [hcr] at this
            exact absurd this (by simp)
          · simp [serialize_diary, htg, hcr, pyOrOptS_some_empty]
      · exact ih (i + 1) (fun x hx => htags x (List.mem_cons_of_mem d hx))
          (fun x hx => hcre x (List.mem_cons_of_mem d hx))

theorem restore_serialized_schedules (i : Nat) (ss : List Schedule)
    (hdone : ∀ s ∈ ss, s.done.isSome = true) :
    restoreSchedulesFrom i (ss.map serialize_schedule) =
      reindexSchedules i ss := by
  induction ss generalizing i with
  | nil => rfl
  | cons s rest ih =>
      simp only [List.map_cons, restoreSchedulesFrom, reindexSchedules]
      congr 1
      · rcases hdn : s.done with _ | dn
        · have := hdone s (List.mem_cons_self s rest)
          rw [hdn] at this
          exact absurd this (by simp)
        · simp [serialize_schedule, hdn, pyBool, pyOrOptS_some_empty]
      · exact ih (i + 1) (fun x hx => hdone x (List.mem_cons_of_mem s hx))

theorem restore_serialized_todos (ts : List Todo)
    (hstatus : ∀ t ∈ ts, t.status ≠ "")
    (hsi : ∀ t ∈ ts, t.sort_index = 0) :
    restoreTodos (ts.map serialize_todo) = ts := by
  unfold restoreTodos
  rw [List.map_map]
  have h2 : ∀ t ∈ ts, ((fun t =>
      ({ id := t.id.getD (""), date := pyOrOptS t.date (""),
         title := pyOrOptS t.title (""), status := pyOrOptS t.status ("pending"),
         order := pyOrOptI t.order 0, sort_index := 0 } : Todo)) ∘
        serialize_todo) t = id t := by
    intro t ht
    have h0 := hsi t ht
    have h1 := hstatus t ht
    rcases t with ⟨tid, tdate, ttitle, tstatus, torder, tsi⟩
    simp only at h0
    subst h0
    simp only [Function.comp_apply, id_eq, serialize_todo]
    simp [pyOrOptS_some_empty, pyOrOptI_some_zero,
      pyOrOptS_some_ne _ _ h1]
  rw [List.map_congr_left h2, List.map_id]

theorem serialized_todos_valid (ts : List Todo)
    (hids : (ts.map Todo.id).Nodup) :
    restoreTodosValid (ts.map serialize_todo) := by
  constructor
  · intro t ht
    rcases List.mem_map.mp ht with ⟨u, _, he⟩
    rw [← he]
    rfl
  · rw [List.filterMap_map]
    show (List.filterMap (some ∘ Todo.id) ts).Nodup
    rw [List.filterMap_eq_map]
    exact hids

theorem foldl_fixed {α β : Type} (f : α → β → α) (init : α)
    (names : List β) (h : ∀ n ∈ names, f init n = init) :
    names.foldl f init = init := by
  induction names with
  | nil => rfl
  | cons n rest ih =>
      rw [List.foldl_cons, h n (List.mem_cons_self n rest)]
      exact ih (fun x hx => h x (List.mem_cons_of_mem n hx))

theorem keyUnique (l : Dir) (hnd : (l.map Prod.fst).Nodup)
    (e1 : String × Payload) (h1 : e1 ∈ l) (e2 : String × Payload)
    (h2 : e2 ∈ l) (hk : e1.1 = e2.1) : e1 = e2 := by
  induction l with
  | nil => exact absurd h1 (List.not_mem_nil e1)
  | cons a rest ih =>
      rw [List.map_cons, List.nodup_cons] at hnd
      rcases List.mem_cons.mp h1 with rfl | hm1
      · rcases List.mem_cons.mp h2 with rfl | hm2
        · rfl
        · exact absurd (hk ▸ List.mem_map_of_mem Prod.fst hm2) hnd.1
      · rcases List.mem_cons.mp h2 with rfl | hm2
        · exact absurd (hk ▸ List.mem_map_of_mem Prod.fst hm1) hnd.1
        · exact ih hnd.2 hm1 hm2

theorem dirWrite_self (dir : Dir) (hnd : (dir.map Prod.fst).Nodup)
    (k : String) (v : Payload) (hmem : (k, v) ∈ dir) :
    dirWrite dir k v = dir := by
  unfold dirWrite
  rw [if_pos (List.any_eq_true.mpr ⟨(k, v), hmem, by simp⟩)]
  have : ∀ e ∈ dir, (if e.1 == k then (e.1, v) else e) = id e := by
    intro e he
    by_cases hek : (e.1 == k) = true
    · rw [if_pos hek]
      have he2 : e = (k, v) :=
        keyUnique dir hnd e he (k, v) hmem (by simpa using hek)
      rw [he2]
      rfl
    · rw [if_neg hek]
      rfl
  rw [List.map_congr_left this, List.map_id]

theorem restoreAssets_roundtrip (todayStr : String) (db : DB)
    (uploads : Dir) (hnd : (uploads.map Prod.fst).Nodup) :
    restoreAssets (backup_db todayStr db uploads) uploads = uploads := by
  unfold restoreAssets
  rw [backup_names]
  rw [List.filter_cons_of_neg (by simp [datedName_not_uploads todayStr])]
  have hfil : (uploads.map (fun e => "uploads/" ++ e.1)).filter
      (fun n => strStartsWith n ("uploads/")) =
      uploads.map (fun e => "uploads/" ++ e.1) := by
    rw [List.filter_eq_self]
    intro n hn
    rcases List.mem_map.mp hn with ⟨e, _, he⟩
    rw [← he]
    exact uploadsName_isUploads e.1
  rw [hfil]
  have hstep : ∀ name ∈ uploads.map (fun e => "uploads/" ++ e.1),
      (fun dir name =>
        let rel : String := ⟨name.data.drop 8⟩
        if rel = "" then dir
        else
          match ((backup_db todayStr db uploads).reverse.find?
              (fun e => e.name == name)).map ZipEntry.payload with
          | some c => dirWrite dir rel c
          | none => dir) uploads name = uploads := by
    intro name hn
    rcases List.mem_map.mp hn with ⟨e, hemem, he⟩
    rcases e with ⟨k, v⟩
    simp only at he
    subst he
    simp only [uploadsName_drop k]
    by_cases hk : k = ""
    · rw [if_pos hk]
    · rw [if_neg hk]
      rcases hf : ((backup_db todayStr db uploads).reverse.find?
          (fun e => e.name == "uploads/" ++ k)) with _ | found
      · rw [hf]
        rfl
      · rw [hf]
        have hfound := List.find?_some hf
        have hfmem : found ∈ (backup_db todayStr db uploads).reverse :=
          List.mem_of_find?_eq_some hf
        rw [List.mem_reverse] at hfmem
        unfold backup_db at hfmem
        rcases List.mem_cons.mp hfmem with rfl | hfm
        · exact absurd (by simpa using hfound)
            (uploadsName_ne_dated k todayStr).symm
        · rcases List.mem_map.mp hfm with ⟨e2, he2mem, he2⟩
          have hname : "uploads/" ++ e2.1 = "uploads/" ++ k := by
            rw [← he2] at hfound
            simpa using hfound
          have hk2 : e2.1 = k := uploadsName_inj e2.1 k hname
          have he2eq : e2 = (k, v) :=
            keyUnique uploads hnd e2 he2mem (k, v) hemem hk2
          have hpay : found.payload = v := by
            rw [← he2, he2eq]
          have hmap : Option.map ZipEntry.payload (some found) = some v := by
            simp [hpay]
          rw [hmap]
          exact dirWrite_self uploads hnd k v hemem
  exact foldl_fixed _ _ _ hstep

/-- C2 counterexample: export-then-restore on a store whose single diary row
has id 2 succeeds, but produces a diary row with the regenerated
auto-increment id 1 — the row sets are NOT identical, because restore
re-inserts diary (and schedule) records without their serialized ids. -/
theorem C2_counterexample :
    (restore_db ("x.zip") (some (backup_db ("20250601") c2db [])) 99
        ⟨c2db, []⟩).2 = .redirect ∧
    (restore_db ("x.zip") (some (backup_db ("20250601") c2db [])) 99
        ⟨c2db, []⟩).1.db ≠ c2db :=
  ⟨by decide, by decide⟩

/-- C2 amended: exporting a backup archive and immediately restoring it into
the same store reproduces the todo rows exactly (ids and ranks preserved) and
every diary and schedule row up to freshly generated surrogate integer ids
`1, 2, …` in the original order; the asset directory tree is unchanged.  The
hypotheses restrict to stores without NULL diary tags / creation timestamps,
NULL schedule done flags, or empty-string todo statuses, whose re-inserted
values are regenerated rather than copied verbatim. -/
theorem C2_roundtrip_up_to_surrogate_ids (db : DB) (uploads : Dir)
    (todayStr fn : String) (now : Nat)
    (hfn : strEndsWith fn (".zip") = true)
    (htags : ∀ d ∈ db.diaries, d.tags.isSome = true)
    (hcre : ∀ d ∈ db.diaries, d.created_at.isSome = true)
    (hdone : ∀ s ∈ db.schedules, s.done.isSome = true)
    (hstatus : ∀ t ∈ db.todos, t.status ≠ "")
    (hsi : ∀ t ∈ db.todos, t.sort_index = 0)
    (hids : (db.todos.map Todo.id).Nodup)
    (hnd : (uploads.map Prod.fst).Nodup) :
    restore_db fn (some (backup_db todayStr db uploads)) now ⟨db, uploads⟩ =
      (⟨⟨reindexDiaries 0 db.diaries, reindexSchedules 0 db.schedules,
          db.todos⟩, uploads⟩, .redirect) := by
  have hsel := backup_select todayStr db uploads
  have hread := backup_read todayStr db uploads
  have hphase : restorePhase db (serializeDB db) now =
      (⟨reindexDiaries 0 db.diaries, reindexSchedules 0 db.schedules,
        db.todos⟩, none) := by
    unfold restorePhase
    have hval : restoreTodosValid (serializeDB db).todos :=
      serialized_todos_valid db.todos hids
    rw [if_pos hval]
    have hd : restoreDiaries now (serializeDB db).diaries =
        reindexDiaries 0 db.diaries :=
      restore_serialized_diaries now 0 db.diaries htags hcre
    have hs : restoreSchedules (serializeDB db).schedules =
        reindexSchedules 0 db.schedules :=
      restore_serialized_schedules 0 db.schedules hdone
    have ht : restoreTodos (serializeDB db).todos = db.todos :=
      restore_serialized_todos db.todos hstatus hsi
    rw [hd, hs, ht]
  have hassets := restoreAssets_roundtrip todayStr db uploads hnd
  simp only [restore_db, hfn, if_true, hsel, hread, hphase, hassets]

/-- C2 witness: the amended round-trip at a concrete store with one diary,
one schedule, one todo and one asset file. -/
theorem C2_witness :
    restore_db ("x.zip")
        (some (backup_db ("20250601")
          ⟨[⟨2, "t", "c", some ("x"), none, some 5⟩],
           [⟨3, "2025-06-01", "m", some ("memo"), some ("09:00"), none,
             some true⟩],
           [⟨"tid", "2025-06-01", "T", "pending", 1, 0⟩]⟩
          [("img/a.png", .fileData 7)])) 99
        ⟨⟨[⟨2, "t", "c", some ("x"), none, some 5⟩],
          [⟨3, "2025-06-01", "m", some ("memo"), some ("09:00"), none,
            some true⟩],
          [⟨"tid", "2025-06-01", "T", "pending", 1, 0⟩]⟩,
         [("img/a.png", .fileData 7)]⟩ =
      (⟨⟨[⟨1, "t", "c", some ("x"), none, some 5⟩],
         [⟨1, "2025-06-01", "m", some ("memo"), some ("09:00"), none,
           some true⟩],
         [⟨"tid", "2025-06-01", "T", "pending", 1, 0⟩]⟩,
        [("img/a.png", .fileData 7)]⟩, .redirect) := by
  rw [C2_roundtrip_up_to_surrogate_ids
    ⟨[⟨2, "t", "c", some ("x"), none, some 5⟩],
     [⟨3, "2025-06-01", "m", some ("memo"), some ("09:00"), none, some true⟩],
     [⟨"tid", "2025-06-01", "T", "pending", 1, 0⟩]⟩
    [("img/a.png", .fileData 7)] "20250601" "x.zip" 99
    (by decide) (by decide) (by decide) (by decide) (by decide) (by decide)
    (by decide) (by decide)]
  decide

end DiaryApp
